import Mathlib

/-!
# Verification of the protolang simulator core

A shallow embedding of `src/protolang_simulator.tsx` (the simulation core:
agent state, the communication/adaptation protocol, drift metrics, context
shifts), together with proofs about the embedded definitions.

Modelling conventions:
* JavaScript numbers are modelled as exact rationals (`ℚ`); the only
  irrational quantities are the cosine distances, which involve `Math.sqrt`
  and are modelled in `ℝ`.
* `Math.random()` and `Date.now()` are modelled as injected streams
  (`Env.rand`, `Env.clock`) consumed at explicit counters, matching the
  call order of the source; `Env.rand i ∈ [0,1)` is the contract of
  `Math.random` and appears as a hypothesis where needed.
* A JavaScript `NaN` arising from the division by a zero magnitude in
  `calculateVectorDistance` is modelled as `none : Option ℝ`; `NaN`
  poisoning of sums, averages and `NaN < 0.5 = false` is modelled by
  `Option` propagation.
* React `useState` setters are read sequentially: `setX(f)` is modelled as
  the assignment `x := f x` at its call site inside one simulation step.
* The symbol table of an agent (a JS object keyed by the vocabulary) is
  modelled as a total function `Symbol → SymbolMeaning`; every agent always
  has exactly one meaning per vocabulary symbol.  The trust table is a
  total function from peer id; the self entry is initialised like the
  others but is never read or written by the source.  The dead fields
  `associations` and `beliefState` (never read nor updated by the source
  logic) are not carried.
-/

namespace Protolang

/-- A symbol of the shared vocabulary (`'α'`, `'β'`, ... in the source). -/
abbrev Symbol := String

/-- A point of the 3-dimensional semantic space (source: `Array(3)` of numbers). -/
abbrev Vec := Fin 3 → ℚ

/-- Injected external environment: `rand i` is the value returned by the
`i`-th call to `Math.random()`, `clock j` the value of the `j`-th call to
`Date.now()`. -/
structure Env where
  rand : ℕ → ℚ
  clock : ℕ → ℤ

/-- The contract of `Math.random`: every sample lies in `[0, 1)`. -/
def Env.RandOK (env : Env) : Prop := ∀ i, 0 ≤ env.rand i ∧ env.rand i < 1

/-- `vec1.reduce((sum, val, i) => sum + val * vec2[i], 0)` (source line 75). -/
def dotProduct (v1 v2 : Vec) : ℚ :=
  v1 0 * v2 0 + v1 1 * v2 1 + v1 2 * v2 2

/-- The squared magnitude `vec.reduce((sum, val) => sum + val * val, 0)`
(the argument of `Math.sqrt` on source lines 76–77). -/
def sqMag (v : Vec) : ℚ := dotProduct v v

/-- `calculateVectorDistance` (source lines 74–79):
`1 - dotProduct / (mag1 * mag2)`, i.e. one minus the cosine similarity.
When either magnitude is zero the JavaScript division yields `NaN`
(`0/0`, since a zero magnitude forces a zero dot product); this is
modelled by `none`. -/
noncomputable def calculateVectorDistance (v1 v2 : Vec) : Option ℝ :=
  if sqMag v1 = 0 ∨ sqMag v2 = 0 then none
  else some (1 - (dotProduct v1 v2 : ℝ) /
    (Real.sqrt (sqMag v1) * Real.sqrt (sqMag v2)))

/-- Private meaning of one symbol for one agent (source lines 34–41). -/
structure SymbolMeaning where
  vector : Vec
  confidence : ℚ
  usageCount : ℕ
  lastUsed : ℕ
  successRate : ℚ

/-- An entry of an agent's bounded interaction memory (source lines 187–188). -/
structure MemEntry where
  step : ℕ
  sent : Bool            -- `action: 'sent'` vs `'received'`
  sequence : List Symbol
  success : Bool
  partner : ℕ

/-- One agent (source lines 44–54). -/
structure Agent where
  id : ℕ
  name : String
  symbolMappings : Symbol → SymbolMeaning
  trustScores : ℕ → ℚ
  memory : List MemEntry
  adaptability : ℚ
  convergenceSpeed : ℚ
  forgettingRate : ℚ

/-- Placeholder used to totalise `List.getD` index accesses; only reachable
when an index is out of range, which cannot happen under `Env.RandOK`. -/
def dummyMeaning : SymbolMeaning := ⟨fun _ => 0, 3/10, 0, 0, 1/2⟩

/-- Placeholder agent for `List.getD`; see `dummyMeaning`. -/
def dummyAgent : Agent :=
  ⟨0, "", fun _ => dummyMeaning, fun _ => 1/2, [], 1/5, 1/10, 1/1000⟩

/-- One recorded exchange (source lines 135–145).  The `distance` field is
`none` when the JavaScript value would be `NaN`. -/
structure Communication where
  id : ℤ
  sender : ℕ
  receiver : ℕ
  sequence : List Symbol
  success : Bool
  step : ℕ
  distance : Option ℝ
  trustBefore : ℚ
  sequenceLength : ℕ

/-- The three context-shift kinds (source line 208). -/
inductive ShiftType where
  | symbol_redefinition
  | new_agent
  | task_change
deriving DecidableEq

/-- A recorded context shift (source lines 211–215). -/
structure ContextShift where
  step : ℕ
  kind : ShiftType
  id : ℤ
deriving DecidableEq

/-- One drift history entry `{step, drift}` (source line 262). -/
structure DriftSample where
  step : ℕ
  drift : Option ℝ

/-- One alignment history entry `{step, alignment}` (source line 263). -/
structure AlignmentSample where
  step : ℕ
  alignment : Option ℝ

/-- The whole simulation state (the `useState` variables of the source that
the core logic reads or writes), plus the consumption counters of the two
injected streams. -/
structure SimState where
  step : ℕ
  agents : List Agent
  symbols : List Symbol
  communications : List Communication
  driftHistory : List DriftSample
  alignmentHistory : List AlignmentSample
  syntaxPatterns : String → ℕ
  contextShifts : List ContextShift
  randCtr : ℕ
  clockCtr : ℕ

/-- `prev.slice(-n)`: the last `n` elements of a list (all of it when
shorter). -/
def lastN (n : ℕ) (l : List α) : List α := l.drop (l.length - n)

/-- `Math.floor(r * len)` as a list index (source lines 100–101, 109, 209, 219). -/
def floorIdx (r : ℚ) (len : ℕ) : ℕ := (⌊r * len⌋).toNat

/-! ## Forgetting pass (source lines 87–97) -/

/-- Forgetting applied to one symbol meaning: when `step - lastUsed > 20`,
multiply confidence by `1 - forgettingRate` and drift each vector component
by `(Math.random() - 0.5) * 0.01`.  Returns the (possibly unchanged)
meaning and the advanced random counter. -/
def forgetMeaning (env : Env) (k stepN : ℕ) (fRate : ℚ) (m : SymbolMeaning) :
    SymbolMeaning × ℕ :=
  if 20 < stepN - m.lastUsed then
    ({m with confidence := m.confidence * (1 - fRate),
             vector := fun i => m.vector i + (env.rand (k + i.val) - 1/2) * (1/100)},
     k + 3)
  else (m, k)

/-- Forgetting over the key list of an agent's symbol table, in vocabulary
order (`Object.keys(agent.symbolMappings).forEach`, source line 89). -/
def forgetSymbols (env : Env) (stepN : ℕ) (fRate : ℚ) :
    List Symbol → (Symbol → SymbolMeaning) → ℕ → (Symbol → SymbolMeaning) × ℕ
  | [], maps, k => (maps, k)
  | sym :: rest, maps, k =>
    let p := forgetMeaning env k stepN fRate (maps sym)
    forgetSymbols env stepN fRate rest (Function.update maps sym p.1) p.2

/-- Forgetting pass over one agent. -/
def forgetAgent (env : Env) (stepN : ℕ) (symbols : List Symbol) (a : Agent) (k : ℕ) :
    Agent × ℕ :=
  let p := forgetSymbols env stepN a.forgettingRate symbols a.symbolMappings k
  ({a with symbolMappings := p.1}, p.2)

/-- Forgetting pass over the population, in order (source line 88). -/
def forgetAgents (env : Env) (stepN : ℕ) (symbols : List Symbol) :
    List Agent → ℕ → List Agent × ℕ
  | [], k => ([], k)
  | a :: rest, k =>
    let p := forgetAgent env stepN symbols a k
    let q := forgetAgents env stepN symbols rest p.2
    (p.1 :: q.1, q.2)

/-! ## Communication outcome (source lines 112–121) -/

/-- `optTotal` models the JavaScript accumulation `totalDistance += d`
starting from `0`: one `NaN` summand (`none`) poisons the total. -/
def optTotal (l : List (Option ℝ)) : Option ℝ :=
  l.foldl (fun acc d => acc.bind (fun a => d.map (fun x => a + x))) (some 0)

/-- The per-symbol distances between sender's and receiver's meaning
vectors over an exchanged sequence (source lines 114–118). -/
noncomputable def seqDistances (sA rA : Agent) (seq : List Symbol) : List (Option ℝ) :=
  seq.map fun sym =>
    calculateVectorDistance (sA.symbolMappings sym).vector (rA.symbolMappings sym).vector

/-- `avgDistance = totalDistance / sequence.length` (source line 120); `NaN`
(either from a degenerate distance or from an empty sequence's `0/0`) is
`none`. -/
noncomputable def avgSeqDistance (sA rA : Agent) (seq : List Symbol) : Option ℝ :=
  if seq.length = 0 then none
  else (optTotal (seqDistances sA rA seq)).map (fun t => t / seq.length)

/-- `success = avgDistance < 0.5` (source line 121).  In JavaScript
`NaN < 0.5` is `false`, so a `none` average yields `false`. -/
noncomputable def exchangeSuccess (sA rA : Agent) (seq : List Symbol) : Bool :=
  match avgSeqDistance sA rA seq with
  | none => false
  | some d => if d < 1/2 then true else false

/-! ## Per-symbol adaptation (source lines 148–184) -/

/-- The update applied to one symbol of the exchanged sequence: usage
bookkeeping on both sides, then either the success reinforcement
(confidence `+0.05` clamped, trust `+0.02` clamped, vector pull by
`diff * 0.1 * convergenceSpeed`) or, on failure, a strong repair (adopt
sender's vector plus noise in `(r-0.5)*0.2`, confidence `0.3`) with
probability `adaptability * trust`, otherwise a weak repair (noise
`(r-0.5)*0.1`).  Returns the new sender meaning, receiver meaning,
receiver's trust toward the sender and the advanced random counter. -/
def adaptSymbol (env : Env) (k stepN : ℕ) (success : Bool)
    (adaptability convergenceSpeed trust : ℚ) (sM rM : SymbolMeaning) :
    SymbolMeaning × SymbolMeaning × ℚ × ℕ :=
  let sM1 : SymbolMeaning := {sM with lastUsed := stepN, usageCount := sM.usageCount + 1}
  let rM1 : SymbolMeaning := {rM with lastUsed := stepN, usageCount := rM.usageCount + 1}
  if success then
    ({sM1 with confidence := min 1 (sM1.confidence + 1/20)},
     {rM1 with confidence := min 1 (rM1.confidence + 1/20),
               vector := fun i =>
                 rM1.vector i + (sM1.vector i - rM1.vector i) * (1/10) * convergenceSpeed},
     min 1 (trust + 1/50), k)
  else
    if env.rand k < adaptability * trust then
      (sM1,
       {rM1 with vector := fun i => sM1.vector i + (env.rand (k + 1 + i.val) - 1/2) * (1/5),
                 confidence := 3/10},
       trust, k + 4)
    else
      (sM1,
       {rM1 with vector := fun i => rM1.vector i + (env.rand (k + 1 + i.val) - 1/2) * (1/10)},
       trust, k + 4)

/-- `sequence.forEach` of the adaptation loop, threading the two mutated
agents and the random counter through the sequence. -/
def adaptSeq (env : Env) (stepN : ℕ) (success : Bool) (senderIdx : ℕ) :
    List Symbol → Agent → Agent → ℕ → Agent × Agent × ℕ
  | [], sA, rA, k => (sA, rA, k)
  | sym :: rest, sA, rA, k =>
    let r := adaptSymbol env k stepN success rA.adaptability rA.convergenceSpeed
      (rA.trustScores senderIdx) (sA.symbolMappings sym) (rA.symbolMappings sym)
    adaptSeq env stepN success senderIdx rest
      {sA with symbolMappings := Function.update sA.symbolMappings sym r.1}
      {rA with symbolMappings := Function.update rA.symbolMappings sym r.2.1,
               trustScores := Function.update rA.trustScores senderIdx r.2.2.1}
      r.2.2.2

/-- `memory.push(e)` followed by `if (memory.length > 50) memory.shift()`
(source lines 187–192). -/
def pushMem (mem : List MemEntry) (e : MemEntry) : List MemEntry :=
  let m := mem ++ [e]
  if 50 < m.length then m.tail else m

/-- `sequence.join('-')` and the pattern-count bump (source lines 125–132). -/
def bumpPattern (p : String → ℕ) (seq : List Symbol) : String → ℕ :=
  let key := String.intercalate "-" seq
  Function.update p key (p key + 1)

/-- The symbols drawn for one exchange, each
`symbols[Math.floor(Math.random() * symbols.length)]` (source lines 108–110). -/
def buildSequence (env : Env) (symbols : List Symbol) (k len : ℕ) : List Symbol :=
  (List.range len).map fun i => symbols.getD (floorIdx (env.rand (k + i)) symbols.length) ""

/-- The communication phase of one step (source lines 99–193): draw sender
and receiver, and unless they coincide draw a 1- or 2-symbol sequence,
score it, record the `Communication`, bump the syntax pattern, run the
adaptation loop and push the memory entries.  Returns the new agents,
communication log, pattern table and both counters. -/
noncomputable def commPhase (env : Env) (symbols : List Symbol) (stepN : ℕ)
    (agents : List Agent) (comms : List Communication) (patterns : String → ℕ)
    (k kc : ℕ) :
    List Agent × List Communication × (String → ℕ) × ℕ × ℕ :=
  let sender := floorIdx (env.rand k) agents.length
  let receiver := floorIdx (env.rand (k + 1)) agents.length
  let k1 := k + 2
  if sender = receiver then (agents, comms, patterns, k1, kc)
  else
    let seqLen := if env.rand k1 < 4/5 then 1 else 2
    let k2 := k1 + 1
    let sequence := buildSequence env symbols k2 seqLen
    let k3 := k2 + seqLen
    let sA := agents.getD sender dummyAgent
    let rA := agents.getD receiver dummyAgent
    let avgD := avgSeqDistance sA rA sequence
    let success := exchangeSuccess sA rA sequence
    let timestamp := env.clock kc
    let kc1 := kc + 1
    let patterns1 := if 1 < sequence.length then bumpPattern patterns sequence else patterns
    let comms1 := lastN 29 comms ++
      [⟨timestamp, sender, receiver, sequence, success, stepN, avgD,
        rA.trustScores sender, sequence.length⟩]
    let r := adaptSeq env stepN success sender sequence sA rA k3
    let sA1 := {r.1 with memory := pushMem r.1.memory ⟨stepN, true, sequence, success, receiver⟩}
    let rA1 := {r.2.1 with memory := pushMem r.2.1.memory ⟨stepN, false, sequence, success, sender⟩}
    ((agents.set sender sA1).set receiver rA1, comms1, patterns1, r.2.2, kc1)

/-! ## Context shifts (source lines 207–234) -/

/-- `shiftTypes[Math.floor(Math.random() * shiftTypes.length)]`
(source lines 208–209). -/
def chooseShiftType (r : ℚ) : ShiftType :=
  [ShiftType.symbol_redefinition, ShiftType.new_agent, ShiftType.task_change].getD
    (floorIdx r 3) ShiftType.task_change

/-- `symbol_redefinition`: for every agent replace the target symbol's
vector by a fresh draw (`Math.random() * 2 - 1` per component) and reset
its confidence to `0.3` (source lines 220–232).  Each agent consumes three
random samples, in population order. -/
def redefineAgents (env : Env) (target : Symbol) : ℕ → List Agent → List Agent
  | _, [] => []
  | k, a :: rest =>
    let m := a.symbolMappings target
    let m1 : SymbolMeaning :=
      {m with vector := fun i => env.rand (k + i.val) * 2 - 1, confidence := 3/10}
    {a with symbolMappings := Function.update a.symbolMappings target m1} ::
      redefineAgents env target (k + 3) rest

/-- `triggerContextShift` (source lines 207–234): draw the kind, append the
`ContextShift` record (with a `Date.now()` id), and on
`symbol_redefinition` draw a target symbol and redefine it for every
agent. -/
def triggerContextShift (env : Env) (symbols : List Symbol) (stepN : ℕ)
    (agents : List Agent) (shifts : List ContextShift) (k kc : ℕ) :
    List Agent × List ContextShift × ℕ × ℕ :=
  let t := chooseShiftType (env.rand k)
  let shifts1 := shifts ++ [⟨stepN, t, env.clock kc⟩]
  if t = ShiftType.symbol_redefinition then
    let target := symbols.getD (floorIdx (env.rand (k + 1)) symbols.length) ""
    (redefineAgents env target (k + 2) agents, shifts1, k + 2 + 3 * agents.length, kc + 1)
  else (agents, shifts1, k + 1, kc + 1)

/-! ## Drift metrics (source lines 236–264) -/

/-- The index pairs `i < j` of the double loop on source lines 244–245. -/
def pairIndices (n : ℕ) : List (ℕ × ℕ) :=
  (List.range n).flatMap fun i => ((List.range n).drop (i + 1)).map fun j => (i, j)

/-- The average distance across the vocabulary for one agent pair
(source lines 246–252); `NaN` (zero-magnitude vector, or an empty
vocabulary's `0/0`) is `none`. -/
noncomputable def pairDrift (symbols : List Symbol) (a b : Agent) : Option ℝ :=
  if symbols.length = 0 then none
  else (optTotal (symbols.map fun sym =>
    calculateVectorDistance (a.symbolMappings sym).vector (b.symbolMappings sym).vector)).map
    (fun t => t / symbols.length)

/-- `calculateDriftMetrics` (source lines 236–264): average the pair drifts
(defined as `0` when there are no pairs), compute
`alignment = max(0, (1 - drift) * 100)`, and append both samples to their
bounded histories. -/
noncomputable def calculateDriftMetrics (symbols : List Symbol) (stepN : ℕ)
    (agents : List Agent) (dh : List DriftSample) (ah : List AlignmentSample) :
    List DriftSample × List AlignmentSample :=
  if agents.length = 0 then (dh, ah)
  else
    let pairs := pairIndices agents.length
    let totalDrift := optTotal (pairs.map fun p =>
      pairDrift symbols (agents.getD p.1 dummyAgent) (agents.getD p.2 dummyAgent))
    let avgDrift : Option ℝ :=
      if 0 < pairs.length then totalDrift.map (fun t => t / pairs.length) else some 0
    let alignment := avgDrift.map (fun d => max 0 ((1 - d) * 100))
    (lastN 99 dh ++ [⟨stepN, avgDrift⟩], lastN 99 ah ++ [⟨stepN, alignment⟩])

/-! ## One simulation step (source lines 62–72 and 81–205) -/

/-- One simulation tick: the external driver advances the step counter and
calls `simulateStep`, which returns immediately on an empty population and
otherwise performs forgetting, the communication phase, the scheduled
context shift and the drift metrics.  `step` reads the pre-increment
counter throughout, as in the source. -/
noncomputable def simulateStep (env : Env) (s : SimState) : SimState :=
  if s.agents.length = 0 then {s with step := s.step + 1}
  else
    let f := forgetAgents env s.step s.symbols s.agents s.randCtr
    let c := commPhase env s.symbols s.step f.1 s.communications s.syntaxPatterns f.2 s.clockCtr
    let sh := if 0 < s.step ∧ s.step % 100 = 0
      then triggerContextShift env s.symbols s.step c.1 s.contextShifts c.2.2.2.1 c.2.2.2.2
      else (c.1, s.contextShifts, c.2.2.2.1, c.2.2.2.2)
    let m := calculateDriftMetrics s.symbols s.step sh.1 s.driftHistory s.alignmentHistory
    { step := s.step + 1, agents := sh.1, symbols := s.symbols,
      communications := c.2.1, driftHistory := m.1, alignmentHistory := m.2,
      syntaxPatterns := c.2.2.1, contextShifts := sh.2.1,
      randCtr := sh.2.2.1, clockCtr := sh.2.2.2 }

/-- `n` simulation ticks. -/
noncomputable def run (env : Env) : ℕ → SimState → SimState
  | 0, s => s
  | n + 1, s => run env n (simulateStep env s)

/-! ## Initialisation (source lines 20–59) -/

/-- One freshly sampled symbol meaning (source lines 34–41): a random
vector with components in `[-1, 1)` and a confidence in `[0.3, 0.7)`. -/
def initMeaning (env : Env) (k : ℕ) : SymbolMeaning :=
  { vector := fun i => env.rand (k + i.val) * 2 - 1,
    confidence := 3/10 + env.rand (k + 3) * (2/5),
    usageCount := 0, lastUsed := 0, successRate := 1/2 }

/-- `symbols.forEach` of the initialisation, four random samples per symbol. -/
def initMappings (env : Env) :
    List Symbol → (Symbol → SymbolMeaning) → ℕ → (Symbol → SymbolMeaning) × ℕ
  | [], maps, k => (maps, k)
  | sym :: rest, maps, k =>
    initMappings env rest (Function.update maps sym (initMeaning env k)) (k + 4)

/-- One initialised agent (source lines 22–54): trust `0.5` toward every
peer, fresh symbol meanings, empty memory, and the three traits
`adaptability ∈ [0.2, 0.8)`, `convergenceSpeed ∈ [0.1, 0.4)`,
`forgettingRate ∈ [0.001, 0.005)`. -/
def initAgent (env : Env) (i : ℕ) (symbols : List Symbol) (k : ℕ) : Agent × ℕ :=
  let p := initMappings env symbols (fun _ => dummyMeaning) k
  ({ id := i, name := "Agent-" ++ (Char.ofNat (65 + i)).toString,
     symbolMappings := p.1, trustScores := fun _ => 1/2, memory := [],
     adaptability := 1/5 + env.rand p.2 * (3/5),
     convergenceSpeed := 1/10 + env.rand (p.2 + 1) * (3/10),
     forgettingRate := 1/1000 + env.rand (p.2 + 2) * (1/250) }, p.2 + 3)

/-- The population loop of `initAgents`, ids counting up from `i`. -/
def initAgentsFrom (env : Env) (symbols : List Symbol) :
    ℕ → ℕ → ℕ → List Agent × ℕ
  | 0, _, k => ([], k)
  | n + 1, i, k =>
    let p := initAgent env i symbols k
    let q := initAgentsFrom env symbols n (i + 1) p.2
    (p.1 :: q.1, q.2)

/-- The initial simulation state (source lines 4–17 and 20–59): four fresh
agents, the six-symbol vocabulary, step `0`, all histories empty. -/
def initState (env : Env) (symbols : List Symbol) : SimState :=
  let p := initAgentsFrom env symbols 4 0 0
  { step := 0, agents := p.1, symbols := symbols, communications := [],
    driftHistory := [], alignmentHistory := [], syntaxPatterns := fun _ => 0,
    contextShifts := [], randCtr := p.2, clockCtr := 0 }

/-! ## Invariant predicates -/

/-- The confidence of a symbol meaning lies in `[0, 1]`. -/
def MeaningOK (m : SymbolMeaning) : Prop := 0 ≤ m.confidence ∧ m.confidence ≤ 1

/-- All confidences and trusts of an agent lie in `[0, 1]`, and its
forgetting rate lies in `[0, 1]` (the sampled range is `[0.001, 0.005)`). -/
def AgentOK (a : Agent) : Prop :=
  (∀ sym, MeaningOK (a.symbolMappings sym)) ∧
  (∀ p, 0 ≤ a.trustScores p ∧ a.trustScores p ≤ 1) ∧
  0 ≤ a.forgettingRate ∧ a.forgettingRate ≤ 1

/-- Every agent of the state satisfies `AgentOK`. -/
def StateOK (s : SimState) : Prop := ∀ a ∈ s.agents, AgentOK a

/-- All trust entries of an agent lie in `[0.5, 1]`. -/
def TrustHi (a : Agent) : Prop := ∀ p, 1/2 ≤ a.trustScores p ∧ a.trustScores p ≤ 1

/-- Every agent's trust entries lie in `[0.5, 1]`. -/
def TrustInv (s : SimState) : Prop := ∀ a ∈ s.agents, TrustHi a

/-- The bounded-history invariant of the state: communication log at most
30, drift and alignment histories at most 100, every agent's interaction
memory at most 50. -/
def Bounded (s : SimState) : Prop :=
  s.communications.length ≤ 30 ∧ s.driftHistory.length ≤ 100 ∧
  s.alignmentHistory.length ≤ 100 ∧ ∀ a ∈ s.agents, a.memory.length ≤ 50

/-- The clock-independent payload of a `Communication` record: every field
except the `Date.now()` id. -/
def Communication.data (c : Communication) :
    ℕ × ℕ × List Symbol × Bool × ℕ × Option ℝ × ℚ × ℕ :=
  (c.sender, c.receiver, c.sequence, c.success, c.step, c.distance, c.trustBefore,
   c.sequenceLength)

/-- The clock-independent payload of a `ContextShift` record: every field
except the `Date.now()` id. -/
def ContextShift.data (c : ContextShift) : ℕ × ShiftType := (c.step, c.kind)

/-- Two simulation states that agree everywhere except possibly in the
`Date.now()` ids of their `Communication` and `ContextShift` records. -/
def SimRel (s1 s2 : SimState) : Prop :=
  s1.step = s2.step ∧ s1.agents = s2.agents ∧ s1.symbols = s2.symbols ∧
  s1.communications.map Communication.data = s2.communications.map Communication.data ∧
  s1.driftHistory = s2.driftHistory ∧ s1.alignmentHistory = s2.alignmentHistory ∧
  s1.syntaxPatterns = s2.syntaxPatterns ∧
  s1.contextShifts.map ContextShift.data = s2.contextShifts.map ContextShift.data ∧
  s1.randCtr = s2.randCtr ∧ s1.clockCtr = s2.clockCtr

/-! ## Concrete fixtures used by witnesses and counterexamples -/

/-- The unit vector `(1,0,0)`. -/
def e1 : Vec := fun i => if i.val = 0 then 1 else 0

/-- The unit vector `(0,1,0)`. -/
def e2 : Vec := fun i => if i.val = 1 then 1 else 0

/-- A concrete symbol meaning with the unit vector `(1,0,0)`. -/
def wMeaning : SymbolMeaning := ⟨e1, 1/2, 0, 0, 1/2⟩

/-- A concrete agent whose every meaning is `wMeaning` and whose every
trust entry is `0.5`. -/
def wAgent (i : ℕ) : Agent := ⟨i, "W", fun _ => wMeaning, fun _ => 1/2, [], 1/2, 1/5, 1/500⟩

/-- A one-agent state about to execute step 100. -/
def wState : SimState := ⟨100, [wAgent 0], ["a"], [], [], [], fun _ => 0, [], 0, 0⟩

/-- A state with an empty population. -/
def wEmptyState : SimState := ⟨7, [], ["a"], [], [], [], fun _ => 0, [], 0, 0⟩

/-- An environment whose random stream is constantly `3/4` and whose clock
is constantly `0`. -/
def envA : Env := ⟨fun _ => 3/4, fun _ => 0⟩

/-- Same random stream as `envA` but a different clock. -/
def envB : Env := ⟨fun _ => 3/4, fun _ => 7⟩

/-- An environment whose random stream is constantly `1/2`. -/
def envHalf : Env := ⟨fun _ => 1/2, fun _ => 0⟩

/-- An environment whose random stream is constantly `1/4`. -/
def envQuarter : Env := ⟨fun _ => 1/4, fun _ => 0⟩

/-! # Theorems -/

@[simp] theorem lastN_length (n : ℕ) (l : List α) :
    (lastN n l).length = min n l.length := by
  simp [lastN]; omega

theorem lastN_suffix (n : ℕ) (l : List α) : (lastN n l).IsSuffix l :=
  ⟨l.take (l.length - n), List.take_append_drop _ _⟩

theorem floorIdx_lt (r : ℚ) (len : ℕ) (h1 : r < 1) (hlen : 0 < len) :
    floorIdx r len < len := by
  have : ⌊r * len⌋ < (len : ℤ) := by
    apply Int.floor_lt.2
    push_cast
    calc r * len < 1 * len := by
          apply mul_lt_mul_of_pos_right h1 (by exact_mod_cast hlen)
      _ = len := one_mul _
  simp only [floorIdx]
  omega

theorem sqMag_nonneg (v : Vec) : 0 ≤ sqMag v := by
  simp only [sqMag, dotProduct]
  nlinarith [mul_self_nonneg (v 0), mul_self_nonneg (v 1), mul_self_nonneg (v 2)]

theorem dotProduct_sq_le (u v : Vec) :
    dotProduct u v ^ 2 ≤ sqMag u * sqMag v := by
  simp only [sqMag, dotProduct]
  nlinarith [sq_nonneg (u 0 * v 1 - u 1 * v 0), sq_nonneg (u 0 * v 2 - u 2 * v 0),
    sq_nonneg (u 1 * v 2 - u 2 * v 1)]

theorem cosDist_mem_range (u v : Vec) (hu : sqMag u ≠ 0) (hv : sqMag v ≠ 0) :
    0 ≤ 1 - (dotProduct u v : ℝ) / (Real.sqrt (sqMag u) * Real.sqrt (sqMag v)) ∧
    1 - (dotProduct u v : ℝ) / (Real.sqrt (sqMag u) * Real.sqrt (sqMag v)) ≤ 2 := by
  have hau : (0:ℝ) < (sqMag u : ℝ) := by
    have h : (0:ℚ) < sqMag u := lt_of_le_of_ne (sqMag_nonneg u) (Ne.symm hu)
    exact_mod_cast h
  have hbv : (0:ℝ) < (sqMag v : ℝ) := by
    have h : (0:ℚ) < sqMag v := lt_of_le_of_ne (sqMag_nonneg v) (Ne.symm hv)
    exact_mod_cast h
  have hs : 0 < Real.sqrt (sqMag u) * Real.sqrt (sqMag v) :=
    mul_pos (Real.sqrt_pos.2 hau) (Real.sqrt_pos.2 hbv)
  have hss : (Real.sqrt (sqMag u) * Real.sqrt (sqMag v)) ^ 2 = (sqMag u : ℝ) * (sqMag v : ℝ) := by
    rw [mul_pow, Real.sq_sqrt hau.le, Real.sq_sqrt hbv.le]
  have h2 : ((dotProduct u v : ℝ)) ^ 2 ≤ (sqMag u : ℝ) * (sqMag v : ℝ) := by
    exact_mod_cast dotProduct_sq_le u v
  have hdle : (dotProduct u v : ℝ) ≤ Real.sqrt (sqMag u) * Real.sqrt (sqMag v) := by
    nlinarith [sq_nonneg ((dotProduct u v : ℝ) - Real.sqrt (sqMag u) * Real.sqrt (sqMag v))]
  have hdge : -(Real.sqrt (sqMag u) * Real.sqrt (sqMag v)) ≤ (dotProduct u v : ℝ) := by
    nlinarith [sq_nonneg ((dotProduct u v : ℝ) + Real.sqrt (sqMag u) * Real.sqrt (sqMag v))]
  constructor
  · have h3 : (dotProduct u v : ℝ) / (Real.sqrt (sqMag u) * Real.sqrt (sqMag v)) ≤ 1 :=
      (div_le_one hs).2 hdle
    linarith
  · have h3 : -1 ≤ (dotProduct u v : ℝ) / (Real.sqrt (sqMag u) * Real.sqrt (sqMag v)) := by
      rw [le_div_iff₀ hs]
      linarith
    linarith

/-- **C2** (code-bug evidence): `calculateVectorDistance` has no fallback
for zero-magnitude vectors — at the failing input `u = (0,0,0)`,
`v = (1,0,0)` the JavaScript division is `0/0`, producing `NaN` (modelled
as `none`), not the defined fallback (maximal distance 2 or a surfaced
recoverable error) that the claim requires.  The second half of the claim
does hold: for every pair of nonzero-magnitude vectors the result is
`1 − cosine similarity` and lies in `[0, 2]`. -/
theorem claim2_distance_nan_and_range :
    calculateVectorDistance (fun _ => 0) e1 = none ∧
    ∀ u v : Vec, sqMag u ≠ 0 → sqMag v ≠ 0 →
      calculateVectorDistance u v =
        some (1 - (dotProduct u v : ℝ) / (Real.sqrt (sqMag u) * Real.sqrt (sqMag v))) ∧
      ∀ d : ℝ, calculateVectorDistance u v = some d → 0 ≤ d ∧ d ≤ 2 := by
  constructor
  · have hz : sqMag (fun _ => (0:ℚ)) = 0 := by
      simp [sqMag, dotProduct]
    simp [calculateVectorDistance, hz]
  · intro u v hu hv
    have heq : calculateVectorDistance u v =
        some (1 - (dotProduct u v : ℝ) / (Real.sqrt (sqMag u) * Real.sqrt (sqMag v))) := by
      simp [calculateVectorDistance, hu, hv]
    refine ⟨heq, ?_⟩
    intro d hd
    rw [heq] at hd
    have hd' := Option.some.inj hd
    rw [← hd']
    exact cosDist_mem_range u v hu hv

/-- Witness for `claim2_distance_nan_and_range`: concrete nonzero vectors
`(1,0,0)` and `(0,1,0)` satisfy the hypotheses, and the theorem yields
their distance range. -/
theorem claim2_witness :
    (sqMag e1 ≠ 0 ∧ sqMag e2 ≠ 0) ∧
    ∀ d : ℝ, calculateVectorDistance e1 e2 = some d → 0 ≤ d ∧ d ≤ 2 := by
  have h1 : sqMag e1 ≠ 0 := by norm_num [sqMag, dotProduct, e1]
  have h2 : sqMag e2 ≠ 0 := by norm_num [sqMag, dotProduct, e2]
  exact ⟨⟨h1, h2⟩, (claim2_distance_nan_and_range.2 _ _ h1 h2).2⟩

/-- **C6**: on a successful exchange the per-symbol adaptation
(`adaptSymbol` with `success = true`, source lines 157–169) raises both
agents' confidence for the symbol by 0.05 clamped to 1, raises the
receiver's trust toward the sender by 0.02 clamped to 1, moves the
receiver's vector componentwise by
`(sender[i] − receiver[i]) × 0.1 × convergenceSpeed`, leaves the sender's
vector unchanged, and — for a convergence speed in the sampled range
`(0, 0.4)` — does not increase the componentwise distance to the sender's
vector. -/
theorem claim6_success_adaptation (env : Env) (k stepN : ℕ) (a c t : ℚ)
    (sM rM : SymbolMeaning) (hc0 : 0 < c) (hc1 : c < 2/5) :
    (adaptSymbol env k stepN true a c t sM rM).1.confidence = min 1 (sM.confidence + 1/20) ∧
    (adaptSymbol env k stepN true a c t sM rM).2.1.confidence = min 1 (rM.confidence + 1/20) ∧
    (adaptSymbol env k stepN true a c t sM rM).2.2.1 = min 1 (t + 1/50) ∧
    (adaptSymbol env k stepN true a c t sM rM).1.vector = sM.vector ∧
    (∀ i, (adaptSymbol env k stepN true a c t sM rM).2.1.vector i =
      rM.vector i + (sM.vector i - rM.vector i) * (1/10) * c) ∧
    (∀ i, |(adaptSymbol env k stepN true a c t sM rM).2.1.vector i - sM.vector i| ≤
      |rM.vector i - sM.vector i|) := by
  refine ⟨by simp [adaptSymbol], by simp [adaptSymbol], by simp [adaptSymbol],
    by simp [adaptSymbol], fun i => by simp [adaptSymbol], fun i => ?_⟩
  have hv : (adaptSymbol env k stepN true a c t sM rM).2.1.vector i =
      rM.vector i + (sM.vector i - rM.vector i) * (1/10) * c := by simp [adaptSymbol]
  rw [hv]
  have hkey : rM.vector i + (sM.vector i - rM.vector i) * (1/10) * c - sM.vector i =
      (rM.vector i - sM.vector i) * (1 - (1/10) * c) := by ring
  rw [hkey, abs_mul]
  have h1 : |1 - (1/10) * c| ≤ 1 := by
    rw [abs_of_nonneg (by linarith)]
    linarith
  exact mul_le_of_le_one_right (abs_nonneg _) h1

/-- Witness for `claim6_success_adaptation` at concrete inputs. -/
theorem claim6_witness :
    ((0:ℚ) < 1/5 ∧ (1/5 : ℚ) < 2/5) ∧
    (adaptSymbol envHalf 0 5 true (1/2) (1/5) (1/2) wMeaning wMeaning).2.2.1 =
      min 1 (1/2 + 1/50) := by
  refine ⟨⟨by norm_num, by norm_num⟩, ?_⟩
  exact (claim6_success_adaptation envHalf 0 5 (1/2) (1/5) (1/2) wMeaning wMeaning
    (by norm_num) (by norm_num)).2.2.1

theorem optTotal_map_some (l : List ℝ) : optTotal (l.map some) = some l.sum := by
  have key : ∀ (l : List ℝ) (a : ℝ),
      (l.map some).foldl (fun acc d => acc.bind (fun x => d.map (fun y => x + y)))
        (some a) = some (a + l.sum) := by
    intro l
    induction l with
    | nil => intro a; simp
    | cons h t ih =>
      intro a
      have hred : ((some a).bind fun x => Option.map (fun y => x + y) (some h)) =
          some (a + h) := rfl
      rw [List.map_cons, List.foldl_cons, hred, ih]
      simp only [List.sum_cons, Option.some.injEq]
      ring
  have := key l 0
  simpa [optTotal] using this

theorem calculateVectorDistance_self (v : Vec) (hv : sqMag v ≠ 0) :
    calculateVectorDistance v v = some 0 := by
  have hpos : (0:ℝ) < (sqMag v : ℝ) := by
    have h : (0:ℚ) < sqMag v := lt_of_le_of_ne (sqMag_nonneg v) (Ne.symm hv)
    exact_mod_cast h
  have hcond : ¬ (sqMag v = 0 ∨ sqMag v = 0) := by simp [hv]
  rw [calculateVectorDistance, if_neg hcond]
  congr 1
  rw [Real.mul_self_sqrt hpos.le]
  have hdot : dotProduct v v = sqMag v := rfl
  rw [hdot, div_self hpos.ne.symm]
  ring

/-- **C5**: in a communication round, `avgDistance` is the arithmetic mean
of the per-symbol distances between sender's and receiver's meaning
vectors over the exchanged sequence, and the exchange succeeds iff
`avgDistance < 0.5` (source lines 112–121); in particular, when sender and
receiver hold identical nonzero vectors for every symbol of the sequence,
the average is `0` and the exchange succeeds. -/
theorem claim5_outcome_rule (sA rA : Agent) (seq : List Symbol) (hne : seq ≠ []) :
    (∀ ds : List ℝ, seqDistances sA rA seq = ds.map some →
      avgSeqDistance sA rA seq = some (ds.sum / seq.length) ∧
      (exchangeSuccess sA rA seq = true ↔ ds.sum / seq.length < 1/2)) ∧
    ((∀ sym ∈ seq, (sA.symbolMappings sym).vector = (rA.symbolMappings sym).vector ∧
        sqMag ((sA.symbolMappings sym).vector) ≠ 0) →
      avgSeqDistance sA rA seq = some 0 ∧ exchangeSuccess sA rA seq = true) := by
  have hlen : seq.length ≠ 0 := by
    simpa [List.length_eq_zero] using hne
  have main : ∀ ds : List ℝ, seqDistances sA rA seq = ds.map some →
      avgSeqDistance sA rA seq = some (ds.sum / seq.length) ∧
      (exchangeSuccess sA rA seq = true ↔ ds.sum / seq.length < 1/2) := by
    intro ds hds
    have havg : avgSeqDistance sA rA seq = some (ds.sum / seq.length) := by
      simp only [avgSeqDistance, hlen, if_false, if_neg hlen, hds, optTotal_map_some]
      rfl
    refine ⟨havg, ?_⟩
    simp only [exchangeSuccess, havg]
    split_ifs with h
    · exact iff_of_true rfl h
    · exact iff_of_false (by simp) h
  refine ⟨main, fun hid => ?_⟩
  have hds : seqDistances sA rA seq = (seq.map fun _ => (0:ℝ)).map some := by
    simp only [seqDistances, List.map_map]
    apply List.map_congr_left
    intro sym hsym
    rcases hid sym hsym with ⟨hv, hz⟩
    have := calculateVectorDistance_self ((sA.symbolMappings sym).vector) hz
    simp only [Function.comp]
    rw [hv] at this ⊢
    exact this
  rcases main (seq.map fun _ => (0:ℝ)) hds with ⟨havg, hsucc⟩
  have hsum : ((seq.map fun _ => (0:ℝ)).sum) = 0 := by
    simp
  constructor
  · rw [havg, hsum]
    norm_num
  · rw [hsucc, hsum]
    have : (0:ℝ) < seq.length := by
      exact_mod_cast Nat.pos_of_ne_zero hlen
    rw [zero_div]
    norm_num

/-- Witness for `claim5_outcome_rule`: two agents holding the identical
nonzero vector `(1,0,0)` for the single-symbol sequence `["a"]`. -/
theorem claim5_witness :
    ((["a"] : List Symbol) ≠ [] ∧
      ∀ sym ∈ (["a"] : List Symbol),
        ((wAgent 0).symbolMappings sym).vector = ((wAgent 1).symbolMappings sym).vector ∧
        sqMag (((wAgent 0).symbolMappings sym).vector) ≠ 0) ∧
    avgSeqDistance (wAgent 0) (wAgent 1) ["a"] = some 0 ∧
    exchangeSuccess (wAgent 0) (wAgent 1) ["a"] = true := by
  have h1 : (["a"] : List Symbol) ≠ [] := by simp
  have h2 : ∀ sym ∈ (["a"] : List Symbol),
      ((wAgent 0).symbolMappings sym).vector = ((wAgent 1).symbolMappings sym).vector ∧
      sqMag (((wAgent 0).symbolMappings sym).vector) ≠ 0 := by
    intro sym _
    refine ⟨rfl, ?_⟩
    norm_num [wAgent, wMeaning, sqMag, dotProduct, e1]
  exact ⟨⟨h1, h2⟩, (claim5_outcome_rule (wAgent 0) (wAgent 1) ["a"] h1).2 h2⟩

/-- **C7**: on a failed exchange (`adaptSymbol` with `success = false`,
source lines 170–183) the receiver performs, with probability
`adaptability × trust` (modelled as `Math.random() < adaptability × trust`
on the injected stream), a strong repair — vector replaced by the sender's
vector plus independent per-component noise in `[−0.1, 0.1]`, confidence
reset to 0.3 — and otherwise a weak repair — per-component noise in
`[−0.05, 0.05]`, confidence unchanged.  Failure never modifies trust, nor
any sender state beyond `lastUsed` and `usageCount`. -/
theorem claim7_failure_repair (env : Env) (k stepN : ℕ) (a c t : ℚ)
    (sM rM : SymbolMeaning) (hr : env.RandOK) :
    (adaptSymbol env k stepN false a c t sM rM).2.2.1 = t ∧
    (adaptSymbol env k stepN false a c t sM rM).1.vector = sM.vector ∧
    (adaptSymbol env k stepN false a c t sM rM).1.confidence = sM.confidence ∧
    (adaptSymbol env k stepN false a c t sM rM).1.successRate = sM.successRate ∧
    (adaptSymbol env k stepN false a c t sM rM).1.lastUsed = stepN ∧
    (adaptSymbol env k stepN false a c t sM rM).1.usageCount = sM.usageCount + 1 ∧
    (env.rand k < a * t →
      (adaptSymbol env k stepN false a c t sM rM).2.1.confidence = 3/10 ∧
      ∀ i, (adaptSymbol env k stepN false a c t sM rM).2.1.vector i =
          sM.vector i + (env.rand (k + 1 + i.val) - 1/2) * (1/5) ∧
        |(adaptSymbol env k stepN false a c t sM rM).2.1.vector i - sM.vector i| ≤ 1/10) ∧
    (¬ env.rand k < a * t →
      (adaptSymbol env k stepN false a c t sM rM).2.1.confidence = rM.confidence ∧
      ∀ i, (adaptSymbol env k stepN false a c t sM rM).2.1.vector i =
          rM.vector i + (env.rand (k + 1 + i.val) - 1/2) * (1/10) ∧
        |(adaptSymbol env k stepN false a c t sM rM).2.1.vector i - rM.vector i| ≤ 1/20) := by
  have hnoise : ∀ j, |env.rand j - 1/2| ≤ 1/2 := by
    intro j
    rcases hr j with ⟨h0, h1⟩
    rw [abs_le]
    constructor <;> linarith
  by_cases hb : env.rand k < a * t
  · refine ⟨by simp [adaptSymbol, hb], by simp [adaptSymbol, hb], by simp [adaptSymbol, hb],
      by simp [adaptSymbol, hb], by simp [adaptSymbol, hb], by simp [adaptSymbol, hb],
      fun _ => ⟨by simp [adaptSymbol, hb], fun i => ?_⟩, fun h => absurd hb h⟩
    have hv : (adaptSymbol env k stepN false a c t sM rM).2.1.vector i =
        sM.vector i + (env.rand (k + 1 + i.val) - 1/2) * (1/5) := by simp [adaptSymbol, hb]
    refine ⟨hv, ?_⟩
    rw [hv]
    have := hnoise (k + 1 + i.val)
    calc |sM.vector i + (env.rand (k + 1 + i.val) - 1/2) * (1/5) - sM.vector i| =
        |env.rand (k + 1 + i.val) - 1/2| * (1/5) := by
          rw [show sM.vector i + (env.rand (k + 1 + i.val) - 1/2) * (1/5) - sM.vector i =
            (env.rand (k + 1 + i.val) - 1/2) * (1/5) from by ring, abs_mul]
          norm_num
      _ ≤ (1/2) * (1/5) := by
          apply mul_le_mul_of_nonneg_right this
          norm_num
      _ = 1/10 := by norm_num
  · refine ⟨by simp [adaptSymbol, hb], by simp [adaptSymbol, hb], by simp [adaptSymbol, hb],
      by simp [adaptSymbol, hb], by simp [adaptSymbol, hb], by simp [adaptSymbol, hb],
      fun h => absurd h hb, fun _ => ⟨by simp [adaptSymbol, hb], fun i => ?_⟩⟩
    have hv : (adaptSymbol env k stepN false a c t sM rM).2.1.vector i =
        rM.vector i + (env.rand (k + 1 + i.val) - 1/2) * (1/10) := by simp [adaptSymbol, hb]
    refine ⟨hv, ?_⟩
    rw [hv]
    have := hnoise (k + 1 + i.val)
    calc |rM.vector i + (env.rand (k + 1 + i.val) - 1/2) * (1/10) - rM.vector i| =
        |env.rand (k + 1 + i.val) - 1/2| * (1/10) := by
          rw [show rM.vector i + (env.rand (k + 1 + i.val) - 1/2) * (1/10) - rM.vector i =
            (env.rand (k + 1 + i.val) - 1/2) * (1/10) from by ring, abs_mul]
          norm_num
      _ ≤ (1/2) * (1/10) := by
          apply mul_le_mul_of_nonneg_right this
          norm_num
      _ = 1/20 := by norm_num
  -- (the two cases also dispatch the contradictory branch hypotheses)

/-- Witness for `claim7_failure_repair`: the scenario of the spec —
`adaptability = 0`, `trust = 1` forces the weak-repair branch. -/
theorem claim7_witness :
    Env.RandOK envHalf ∧
    (adaptSymbol envHalf 0 5 false 0 (1/5) 1 wMeaning wMeaning).2.2.1 = 1 := by
  have hr : Env.RandOK envHalf := by
    intro i
    constructor <;> norm_num [envHalf]
  exact ⟨hr, (claim7_failure_repair envHalf 0 5 0 (1/5) 1 wMeaning wMeaning hr).1⟩

theorem triggerContextShift_shifts (env : Env) (symbols : List Symbol) (stepN : ℕ)
    (agents : List Agent) (shifts : List ContextShift) (k kc : ℕ) :
    (triggerContextShift env symbols stepN agents shifts k kc).2.1 =
      shifts ++ [⟨stepN, chooseShiftType (env.rand k), env.clock kc⟩] := by
  simp only [triggerContextShift]
  split_ifs with h
  · rfl
  · rfl

theorem chooseShiftType_uniform (r : ℚ) (h0 : 0 ≤ r) (h1 : r < 1) :
    (chooseShiftType r = ShiftType.symbol_redefinition ↔ r < 1/3) ∧
    (chooseShiftType r = ShiftType.new_agent ↔ 1/3 ≤ r ∧ r < 2/3) ∧
    (chooseShiftType r = ShiftType.task_change ↔ 2/3 ≤ r) := by
  by_cases hA : r < 1/3
  · have hf : floorIdx r 3 = 0 := by
      have h : ⌊r * (3:ℚ)⌋ = 0 := by
        rw [Int.floor_eq_zero_iff, Set.mem_Ico]
        constructor
        · nlinarith
        · nlinarith
      simp only [floorIdx, Nat.cast_ofNat]
      rw [h]
      rfl
    have ht : chooseShiftType r = ShiftType.symbol_redefinition := by
      simp [chooseShiftType, hf]
    refine ⟨iff_of_true ht hA, iff_of_false (by simp [ht]) ?_, iff_of_false (by simp [ht]) ?_⟩
    · intro hh
      linarith [hh.1]
    · intro hh
      linarith
  · by_cases hB : r < 2/3
    · have hf : floorIdx r 3 = 1 := by
        have h : ⌊r * (3:ℚ)⌋ = 1 := by
          rw [Int.floor_eq_iff]
          constructor
          · push_cast; nlinarith [not_lt.1 hA]
          · push_cast; nlinarith
        simp only [floorIdx, Nat.cast_ofNat]
        rw [h]
        rfl
      have ht : chooseShiftType r = ShiftType.new_agent := by
        simp [chooseShiftType, hf]
      refine ⟨iff_of_false (by simp [ht]) ?_, iff_of_true ht ⟨not_lt.1 hA, hB⟩,
        iff_of_false (by simp [ht]) ?_⟩
      · intro hh
        exact absurd hh hA
      · intro hh
        linarith
    · have hf : floorIdx r 3 = 2 := by
        have h : ⌊r * (3:ℚ)⌋ = 2 := by
          rw [Int.floor_eq_iff]
          constructor
          · push_cast; nlinarith [not_lt.1 hB]
          · push_cast; nlinarith
        simp only [floorIdx, Nat.cast_ofNat]
        rw [h]
        rfl
      have ht : chooseShiftType r = ShiftType.task_change := by
        simp [chooseShiftType, hf]
      refine ⟨iff_of_false (by simp [ht]) ?_, iff_of_false (by simp [ht]) ?_,
        iff_of_true ht (by linarith [not_lt.1 hB])⟩
      · intro hh
        linarith [not_lt.1 hB]
      · intro hh
        linarith [hh.2, not_lt.1 hB]

theorem redefineAgents_getD (env : Env) (target : Symbol) :
    ∀ (agents : List Agent) (kk i : ℕ), i < agents.length →
      ((redefineAgents env target kk agents).getD i dummyAgent).symbolMappings =
        Function.update ((agents.getD i dummyAgent).symbolMappings) target
          { (agents.getD i dummyAgent).symbolMappings target with
            vector := fun c => env.rand (kk + 3 * i + c.val) * 2 - 1,
            confidence := 3/10 } := by
  intro agents
  induction agents with
  | nil =>
    intro kk i h
    simp at h
  | cons a rest ih =>
    intro kk i h
    cases i with
    | zero =>
      simp [redefineAgents]
    | succ i =>
      have h' : i < rest.length := by simpa using h
      have hstep := ih (kk + 3) i h'
      have harith : kk + 3 + 3 * i = kk + 3 * (i + 1) := by ring
      rw [harith] at hstep
      simpa [redefineAgents] using hstep

theorem triggerContextShift_redef (env : Env) (symbols : List Symbol) (stepN : ℕ)
    (agents : List Agent) (shifts : List ContextShift) (k kc : ℕ)
    (h : chooseShiftType (env.rand k) = ShiftType.symbol_redefinition) :
    (triggerContextShift env symbols stepN agents shifts k kc).1 =
      redefineAgents env (symbols.getD (floorIdx (env.rand (k + 1)) symbols.length) "")
        (k + 2) agents := by
  simp [triggerContextShift, h]

/-- **C8**: a context shift is triggered exactly when `step > 0` and
`step % 100 = 0` (for a nonempty population), appending one `ContextShift`
record; the kind is drawn by `shiftTypes[⌊3r⌋]`, which partitions `[0,1)`
into three equal thirds (the uniform choice); on `symbol_redefinition` the
target symbol — drawn by index `⌊r·K⌋` — has, for every agent, its vector
replaced by a fresh random draw and its confidence reset to exactly
`0.3`. -/
theorem claim8_context_shift_schedule (env : Env) (s : SimState) (hne : s.agents ≠ []) :
    ((0 < s.step ∧ s.step % 100 = 0) →
      ∃ rec : ContextShift, rec.step = s.step ∧
        (simulateStep env s).contextShifts = s.contextShifts ++ [rec]) ∧
    (¬ (0 < s.step ∧ s.step % 100 = 0) →
      (simulateStep env s).contextShifts = s.contextShifts) ∧
    (∀ r : ℚ, 0 ≤ r → r < 1 →
      (chooseShiftType r = ShiftType.symbol_redefinition ↔ r < 1/3) ∧
      (chooseShiftType r = ShiftType.new_agent ↔ 1/3 ≤ r ∧ r < 2/3) ∧
      (chooseShiftType r = ShiftType.task_change ↔ 2/3 ≤ r)) ∧
    (∀ (symbols : List Symbol) (stepN : ℕ) (agents : List Agent)
        (shifts : List ContextShift) (k kc : ℕ),
      chooseShiftType (env.rand k) = ShiftType.symbol_redefinition →
      (triggerContextShift env symbols stepN agents shifts k kc).2.1 =
        shifts ++ [⟨stepN, ShiftType.symbol_redefinition, env.clock kc⟩] ∧
      ∀ i < agents.length,
        ((triggerContextShift env symbols stepN agents shifts k kc).1.getD i
            dummyAgent).symbolMappings =
          Function.update ((agents.getD i dummyAgent).symbolMappings)
            (symbols.getD (floorIdx (env.rand (k + 1)) symbols.length) "")
            { (agents.getD i dummyAgent).symbolMappings
                (symbols.getD (floorIdx (env.rand (k + 1)) symbols.length) "") with
              vector := fun c => env.rand (k + 2 + 3 * i + c.val) * 2 - 1,
              confidence := 3/10 }) := by
  have hlen : ¬ s.agents.length = 0 := by
    simpa [List.length_eq_zero] using hne
  refine ⟨?_, ?_, fun r h0 h1 => chooseShiftType_uniform r h0 h1, ?_⟩
  · intro hcond
    simp only [simulateStep, if_neg hlen, if_pos hcond, triggerContextShift_shifts]
    exact ⟨_, rfl, rfl⟩
  · intro hcond
    simp only [simulateStep, if_neg hlen, if_neg hcond]
  · intro symbols stepN agents shifts k kc hredef
    constructor
    · rw [triggerContextShift_shifts, hredef]
    · intro i hi
      rw [triggerContextShift_redef env symbols stepN agents shifts k kc hredef]
      exact redefineAgents_getD env _ agents (k + 2) i hi

/-- Witness for `claim8_context_shift_schedule`: the concrete one-agent
state at step 100 triggers a shift. -/
theorem claim8_witness :
    (wState.agents ≠ [] ∧ 0 < wState.step ∧ wState.step % 100 = 0) ∧
    ∃ rec : ContextShift, rec.step = wState.step ∧
      (simulateStep envA wState).contextShifts = wState.contextShifts ++ [rec] := by
  have hne : wState.agents ≠ [] := by simp [wState]
  have hcond : 0 < wState.step ∧ wState.step % 100 = 0 := by
    constructor <;> norm_num [wState]
  exact ⟨⟨hne, hcond⟩, (claim8_context_shift_schedule envA wState hne).1 hcond⟩

theorem floorIdx_one (r : ℚ) (h0 : 0 ≤ r) (h1 : r < 1) : floorIdx r 1 = 0 := by
  simp only [floorIdx, Nat.cast_one, mul_one]
  rw [Int.floor_eq_zero_iff.2 (Set.mem_Ico.2 ⟨h0, h1⟩)]
  rfl

theorem commPhase_single (env : Env) (symbols : List Symbol) (stepN : ℕ) (a : Agent)
    (comms : List Communication) (patterns : String → ℕ) (k kc : ℕ)
    (h0 : 0 ≤ env.rand k) (h1 : env.rand k < 1)
    (h0' : 0 ≤ env.rand (k + 1)) (h1' : env.rand (k + 1) < 1) :
    commPhase env symbols stepN [a] comms patterns k kc =
      ([a], comms, patterns, k + 2, kc) := by
  simp only [commPhase, List.length_cons, List.length_nil]
  rw [floorIdx_one _ h0 h1, floorIdx_one _ h0' h1']
  simp

theorem forgetAgents_cons (env : Env) (stepN : ℕ) (symbols : List Symbol)
    (a : Agent) (rest : List Agent) (k : ℕ) :
    forgetAgents env stepN symbols (a :: rest) k =
      ((forgetAgent env stepN symbols a k).1 ::
        (forgetAgents env stepN symbols rest (forgetAgent env stepN symbols a k).2).1,
       (forgetAgents env stepN symbols rest (forgetAgent env stepN symbols a k).2).2) :=
  rfl

theorem calculateDriftMetrics_single (symbols : List Symbol) (stepN : ℕ) (x : Agent)
    (dh : List DriftSample) (ah : List AlignmentSample) :
    calculateDriftMetrics symbols stepN [x] dh ah =
      (lastN 99 dh ++ [⟨stepN, some 0⟩], lastN 99 ah ++ [⟨stepN, some 100⟩]) := by
  have hpairs : pairIndices 1 = ([] : List (ℕ × ℕ)) := rfl
  have hone : ([x] : List Agent).length = 1 := rfl
  have hmax : (max 0 ((1 - (0:ℝ)) * 100)) = 100 := by norm_num
  simp only [calculateDriftMetrics, hone, hpairs, List.map_nil, List.length_nil,
    lt_irrefl, if_false, one_ne_zero, Option.map_some]
  simp [hmax]

theorem simulateStep_empty (env : Env) (s : SimState) (hs : s.agents = []) :
    simulateStep env s = {s with step := s.step + 1} := by
  simp [simulateStep, hs]

theorem simulateStep_single (env : Env) (s : SimState) (a : Agent)
    (hr : env.RandOK) (hs : s.agents = [a]) :
    (simulateStep env s).step = s.step + 1 ∧
    (simulateStep env s).driftHistory = lastN 99 s.driftHistory ++ [⟨s.step, some 0⟩] ∧
    (simulateStep env s).alignmentHistory =
      lastN 99 s.alignmentHistory ++ [⟨s.step, some 100⟩] := by
  have hlen : ¬ s.agents.length = 0 := by simp [hs]
  have hforget : forgetAgents env s.step s.symbols s.agents s.randCtr =
      ([(forgetAgent env s.step s.symbols a s.randCtr).1],
       (forgetAgent env s.step s.symbols a s.randCtr).2) := by
    rw [hs, forgetAgents_cons]
    rfl
  have hcomm := commPhase_single env s.symbols s.step
    (forgetAgent env s.step s.symbols a s.randCtr).1 s.communications s.syntaxPatterns
    (forgetAgent env s.step s.symbols a s.randCtr).2 s.clockCtr
    (hr _).1 (hr _).2 (hr _).1 (hr _).2
  by_cases hcond : 0 < s.step ∧ s.step % 100 = 0
  · by_cases hty : chooseShiftType
        (env.rand ((forgetAgent env s.step s.symbols a s.randCtr).2 + 2)) =
        ShiftType.symbol_redefinition
    · simp only [simulateStep, if_neg hlen, hforget, hcomm, if_pos hcond,
        triggerContextShift, hty, if_pos, redefineAgents, calculateDriftMetrics_single]
      exact ⟨trivial, trivial, trivial⟩
    · simp only [simulateStep, if_neg hlen, hforget, hcomm, if_pos hcond,
        triggerContextShift, if_neg hty, calculateDriftMetrics_single]
      exact ⟨trivial, trivial, trivial⟩
  · simp only [simulateStep, if_neg hlen, hforget, hcomm, if_neg hcond,
      calculateDriftMetrics_single]
    exact ⟨trivial, trivial, trivial⟩

/-- **C9** counterexample: stepping a concrete empty-population state
appends no `DriftSample` at all (the history stays empty), contradicting
the claim that a degenerate `DriftSample` and `AlignmentSample` are still
recorded for that step. -/
theorem claim9_counterexample :
    (simulateStep envA wEmptyState).driftHistory.length ≠
      wEmptyState.driftHistory.length + 1 := by
  rw [simulateStep_empty envA wEmptyState rfl]
  simp [wEmptyState]

/-- **C9** (amended): advancing one step with zero agents is not an error
and is a no-op that still advances the step counter, but it appends
nothing — in particular no `DriftSample` or `AlignmentSample`; the
degenerate metrics (drift `0`, alignment `100`) are recorded for a
one-agent population. -/
theorem claim9_empty_population :
    (∀ env s, s.agents = [] → simulateStep env s = {s with step := s.step + 1}) ∧
    (∀ env s a, env.RandOK → s.agents = [a] →
      (simulateStep env s).step = s.step + 1 ∧
      (simulateStep env s).driftHistory = lastN 99 s.driftHistory ++ [⟨s.step, some 0⟩] ∧
      (simulateStep env s).alignmentHistory =
        lastN 99 s.alignmentHistory ++ [⟨s.step, some 100⟩]) :=
  ⟨fun env s hs => simulateStep_empty env s hs,
   fun env s a hr hs => simulateStep_single env s a hr hs⟩

/-- Witness for `claim9_empty_population` at the concrete one-agent state. -/
theorem claim9_witness :
    (Env.RandOK envA ∧ wState.agents = [wAgent 0]) ∧
    (simulateStep envA wState).driftHistory =
      lastN 99 wState.driftHistory ++ [⟨wState.step, some 0⟩] := by
  have hr : Env.RandOK envA := by
    intro i
    constructor <;> norm_num [envA]
  have hs : wState.agents = [wAgent 0] := rfl
  exact ⟨⟨hr, hs⟩, (claim9_empty_population.2 envA wState (wAgent 0) hr hs).2.1⟩

theorem pushMem_length (mem : List MemEntry) (e : MemEntry) (h : mem.length ≤ 50) :
    (pushMem mem e).length ≤ 50 := by
  simp only [pushMem]
  split_ifs with hl
  · simp only [List.length_tail, List.length_append, List.length_cons, List.length_nil]
    omega
  · simp only [List.length_append, List.length_cons, List.length_nil] at hl ⊢
    omega

theorem pushMem_suffix (mem : List MemEntry) (e : MemEntry) :
    (pushMem mem e).IsSuffix (mem ++ [e]) := by
  simp only [pushMem]
  split_ifs
  · exact List.tail_suffix _
  · exact List.suffix_refl _

theorem floorIdx_len_zero (r : ℚ) : floorIdx r 0 = 0 := by
  simp [floorIdx]

theorem mem_set_set {agents : List Agent} {i j : ℕ} {x y a' : Agent}
    (h : a' ∈ (agents.set i x).set j y) : a' ∈ agents ∨ a' = x ∨ a' = y := by
  rcases List.mem_or_eq_of_mem_set h with h1 | h1
  · rcases List.mem_or_eq_of_mem_set h1 with h2 | h2
    · exact Or.inl h2
    · exact Or.inr (Or.inl h2)
  · exact Or.inr (Or.inr h1)

theorem adaptSeq_memory (env : Env) (stepN : ℕ) (success : Bool) (senderIdx : ℕ) :
    ∀ (seq : List Symbol) (sA rA : Agent) (k : ℕ),
      (adaptSeq env stepN success senderIdx seq sA rA k).1.memory = sA.memory ∧
      (adaptSeq env stepN success senderIdx seq sA rA k).2.1.memory = rA.memory := by
  intro seq
  induction seq with
  | nil => intro sA rA k; exact ⟨rfl, rfl⟩
  | cons sym rest ih =>
    intro sA rA k
    simpa [adaptSeq] using ih _ _ _

theorem forgetAgents_memory (env : Env) (stepN : ℕ) (symbols : List Symbol) :
    ∀ (l : List Agent) (k : ℕ), ∀ a' ∈ (forgetAgents env stepN symbols l k).1,
      ∃ a ∈ l, a'.memory = a.memory := by
  intro l
  induction l with
  | nil =>
    intro k a' h
    simp [forgetAgents] at h
  | cons b rest ih =>
    intro k a' h
    rw [forgetAgents_cons] at h
    rcases List.mem_cons.1 h with h1 | h2
    · exact ⟨b, List.mem_cons_self _ _, by rw [h1]; rfl⟩
    · rcases ih _ a' h2 with ⟨a, ha, hm⟩
      exact ⟨a, List.mem_cons_of_mem _ ha, hm⟩

theorem redefineAgents_memory (env : Env) (target : Symbol) :
    ∀ (l : List Agent) (k : ℕ), ∀ a' ∈ redefineAgents env target k l,
      ∃ a ∈ l, a'.memory = a.memory := by
  intro l
  induction l with
  | nil =>
    intro k a' h
    simp [redefineAgents] at h
  | cons b rest ih =>
    intro k a' h
    simp only [redefineAgents] at h
    rcases List.mem_cons.1 h with h1 | h2
    · exact ⟨b, List.mem_cons_self _ _, by rw [h1]⟩
    · rcases ih _ a' h2 with ⟨a, ha, hm⟩
      exact ⟨a, List.mem_cons_of_mem _ ha, hm⟩

theorem triggerContextShift_memory (env : Env) (symbols : List Symbol) (stepN : ℕ)
    (agents : List Agent) (shifts : List ContextShift) (k kc : ℕ) :
    ∀ a' ∈ (triggerContextShift env symbols stepN agents shifts k kc).1,
      ∃ a ∈ agents, a'.memory = a.memory := by
  intro a' h
  simp only [triggerContextShift] at h
  split_ifs at h
  · exact redefineAgents_memory env _ agents _ a' h
  · exact ⟨a', h, rfl⟩

theorem commPhase_memory (env : Env) (symbols : List Symbol) (stepN : ℕ)
    (agents : List Agent) (comms : List Communication) (patterns : String → ℕ)
    (k kc : ℕ) :
    ∀ a' ∈ (commPhase env symbols stepN agents comms patterns k kc).1,
      (∃ a ∈ agents, a'.memory = a.memory) ∨
      (agents ≠ [] ∧ ∃ m e, (m = [] ∨ ∃ a ∈ agents, m = a.memory) ∧
        a'.memory = pushMem m e) := by
  intro a' h
  by_cases hsr : floorIdx (env.rand k) agents.length =
      floorIdx (env.rand (k + 1)) agents.length
  · have heq : (commPhase env symbols stepN agents comms patterns k kc).1 = agents := by
      simp [commPhase, hsr]
    rw [heq] at h
    exact Or.inl ⟨a', h, rfl⟩
  · have hne : agents ≠ [] := by
      intro he
      subst he
      simp only [List.length_nil, floorIdx_len_zero] at hsr
      exact hsr trivial
    simp only [commPhase, if_neg hsr] at h
    rcases mem_set_set h with h1 | h1 | h1
    · exact Or.inl ⟨a', h1, rfl⟩
    · right
      rw [h1]
      refine ⟨hne, _, _, ?_, rfl⟩
      rw [(adaptSeq_memory env stepN _ _ _ _ _ _).1]
      by_cases hlt : floorIdx (env.rand k) agents.length < agents.length
      · right
        refine ⟨agents[floorIdx (env.rand k) agents.length], List.getElem_mem _, ?_⟩
        simp [List.getD_eq_getElem?_getD, List.getElem?_eq_getElem hlt]
      · left
        have hd : agents.getD (floorIdx (env.rand k) agents.length) dummyAgent =
            dummyAgent := by
          simp [List.getD_eq_getElem?_getD, List.getElem?_eq_none (le_of_not_lt hlt)]
        rw [hd]
        rfl
    · right
      rw [h1]
      refine ⟨hne, _, _, ?_, rfl⟩
      rw [(adaptSeq_memory env stepN _ _ _ _ _ _).2]
      by_cases hlt : floorIdx (env.rand (k + 1)) agents.length < agents.length
      · right
        refine ⟨agents[floorIdx (env.rand (k + 1)) agents.length], List.getElem_mem _, ?_⟩
        simp [List.getD_eq_getElem?_getD, List.getElem?_eq_getElem hlt]
      · left
        have hd : agents.getD (floorIdx (env.rand (k + 1)) agents.length) dummyAgent =
            dummyAgent := by
          simp [List.getD_eq_getElem?_getD, List.getElem?_eq_none (le_of_not_lt hlt)]
        rw [hd]
        rfl

theorem commPhase_comms (env : Env) (symbols : List Symbol) (stepN : ℕ)
    (agents : List Agent) (comms : List Communication) (patterns : String → ℕ)
    (k kc : ℕ) :
    (commPhase env symbols stepN agents comms patterns k kc).2.1 = comms ∨
      ∃ rec, (commPhase env symbols stepN agents comms patterns k kc).2.1 =
        lastN 29 comms ++ [rec] := by
  simp only [commPhase]
  split_ifs <;> first | exact Or.inl rfl | exact Or.inr ⟨_, rfl⟩

theorem calculateDriftMetrics_histories (symbols : List Symbol) (stepN : ℕ)
    (agents : List Agent) (dh : List DriftSample) (ah : List AlignmentSample) :
    ((calculateDriftMetrics symbols stepN agents dh ah).1 = dh ∧
     (calculateDriftMetrics symbols stepN agents dh ah).2 = ah) ∨
    ∃ d al, (calculateDriftMetrics symbols stepN agents dh ah).1 = lastN 99 dh ++ [d] ∧
      (calculateDriftMetrics symbols stepN agents dh ah).2 = lastN 99 ah ++ [al] := by
  simp only [calculateDriftMetrics]
  split_ifs <;> first | exact Or.inl ⟨rfl, rfl⟩ | exact Or.inr ⟨_, _, rfl, rfl⟩

theorem simulateStep_comms (env : Env) (s : SimState) :
    (simulateStep env s).communications = s.communications ∨
      ∃ rec, (simulateStep env s).communications = lastN 29 s.communications ++ [rec] := by
  by_cases hlen : s.agents.length = 0
  · left
    rw [simulateStep_empty env s (List.length_eq_zero.1 hlen)]
  · simp only [simulateStep, if_neg hlen]
    exact commPhase_comms env s.symbols s.step _ s.communications s.syntaxPatterns _ s.clockCtr

theorem simulateStep_histories (env : Env) (s : SimState) :
    ((simulateStep env s).driftHistory = s.driftHistory ∧
     (simulateStep env s).alignmentHistory = s.alignmentHistory) ∨
    ∃ d al, (simulateStep env s).driftHistory = lastN 99 s.driftHistory ++ [d] ∧
      (simulateStep env s).alignmentHistory = lastN 99 s.alignmentHistory ++ [al] := by
  by_cases hlen : s.agents.length = 0
  · left
    rw [simulateStep_empty env s (List.length_eq_zero.1 hlen)]
    exact ⟨rfl, rfl⟩
  · simp only [simulateStep, if_neg hlen]
    exact calculateDriftMetrics_histories s.symbols s.step _ s.driftHistory s.alignmentHistory

theorem simulateStep_memory (env : Env) (s : SimState) :
    ∀ a' ∈ (simulateStep env s).agents,
      (∃ a ∈ s.agents, a'.memory = a.memory) ∨
      (s.agents ≠ [] ∧ ∃ m e, (m = [] ∨ ∃ a ∈ s.agents, m = a.memory) ∧
        a'.memory = pushMem m e) := by
  intro a' h
  by_cases hlen : s.agents.length = 0
  · rw [simulateStep_empty env s (List.length_eq_zero.1 hlen)] at h
    exact Or.inl ⟨a', h, rfl⟩
  · simp only [simulateStep, if_neg hlen] at h
    have hfmem := forgetAgents_memory env s.step s.symbols s.agents s.randCtr
    -- provenance through the optional context shift
    rcases (by
      by_cases hcond : 0 < s.step ∧ s.step % 100 = 0
      · rw [if_pos hcond] at h
        exact triggerContextShift_memory env s.symbols s.step _ s.contextShifts _ _ a' h
      · rw [if_neg hcond] at h
        exact ⟨a', h, rfl⟩ :
        ∃ a2 ∈ (commPhase env s.symbols s.step
          (forgetAgents env s.step s.symbols s.agents s.randCtr).1 s.communications
          s.syntaxPatterns (forgetAgents env s.step s.symbols s.agents s.randCtr).2
          s.clockCtr).1, a'.memory = a2.memory) with ⟨a2, ha2, hm2⟩
    rcases commPhase_memory env s.symbols s.step _ s.communications s.syntaxPatterns _
      s.clockCtr a2 ha2 with ⟨a1, ha1, hm1⟩ | ⟨hne, m, e, hm, hpm⟩
    · rcases hfmem a1 ha1 with ⟨a, ha, hm0⟩
      exact Or.inl ⟨a, ha, by rw [hm2, hm1, hm0]⟩
    · right
      have hne' : s.agents ≠ [] := by
        intro he
        apply hne
        rw [he]
        rfl
      refine ⟨hne', m, e, ?_, by rw [hm2, hpm]⟩
      rcases hm with hm | ⟨a1, ha1, hm⟩
      · exact Or.inl hm
      · rcases hfmem a1 ha1 with ⟨a, ha, hm0⟩
        exact Or.inr ⟨a, ha, by rw [hm, hm0]⟩

theorem simulateStep_bounded (env : Env) (s : SimState) (hb : Bounded s) :
    Bounded (simulateStep env s) := by
  obtain ⟨hc, hd, ha, hm⟩ := hb
  refine ⟨?_, ?_, ?_, ?_⟩
  · rcases simulateStep_comms env s with h | ⟨rec, h⟩
    · rw [h]; exact hc
    · rw [h]
      simp only [List.length_append, lastN_length, List.length_cons, List.length_nil]
      omega
  · rcases simulateStep_histories env s with ⟨h, _⟩ | ⟨d, al, h, _⟩
    · rw [h]; exact hd
    · rw [h]
      simp only [List.length_append, lastN_length, List.length_cons, List.length_nil]
      omega
  · rcases simulateStep_histories env s with ⟨_, h⟩ | ⟨d, al, _, h⟩
    · rw [h]; exact ha
    · rw [h]
      simp only [List.length_append, lastN_length, List.length_cons, List.length_nil]
      omega
  · intro a' h'
    rcases simulateStep_memory env s a' h' with ⟨a, ha', heq⟩ | ⟨_, m, e, hor, heq⟩
    · rw [heq]
      exact hm a ha'
    · rw [heq]
      apply pushMem_length
      rcases hor with rfl | ⟨a, ha', rfl⟩
      · simp
      · exact hm a ha'

/-- **C3**: after any number of steps the communication log never exceeds
30, the drift and alignment histories never exceed 100, and every agent's
interaction memory never exceeds 50; each append drops only the oldest
entries (`slice(-n)` keeps a suffix, `shift()` drops the head), never the
newest. -/
theorem claim3_bounded_histories :
    (∀ (env : Env) (n : ℕ) (s : SimState), Bounded s → Bounded (run env n s)) ∧
    (∀ (env : Env) (s : SimState),
      (simulateStep env s).communications = s.communications ∨
      ∃ rec, (simulateStep env s).communications = lastN 29 s.communications ++ [rec]) ∧
    (∀ (env : Env) (s : SimState), ∀ a' ∈ (simulateStep env s).agents,
      ∃ a ∈ s.agents, ∃ es : List MemEntry, es.length ≤ 1 ∧
        a'.memory.IsSuffix (a.memory ++ es)) ∧
    (∀ (env : Env) (s : SimState),
      ((simulateStep env s).driftHistory = s.driftHistory ∧
       (simulateStep env s).alignmentHistory = s.alignmentHistory) ∨
      ∃ d al, (simulateStep env s).driftHistory = lastN 99 s.driftHistory ++ [d] ∧
        (simulateStep env s).alignmentHistory = lastN 99 s.alignmentHistory ++ [al]) := by
  refine ⟨?_, fun env s => simulateStep_comms env s, ?_, fun env s => simulateStep_histories env s⟩
  · intro env n
    induction n with
    | zero => intro s hb; exact hb
    | succ n ih =>
      intro s hb
      exact ih (simulateStep env s) (simulateStep_bounded env s hb)
  · intro env s a' h'
    rcases simulateStep_memory env s a' h' with ⟨a, ha, heq⟩ | ⟨hne, m, e, hor, heq⟩
    · refine ⟨a, ha, [], by simp, ?_⟩
      rw [heq, List.append_nil]
    · rcases hor with rfl | ⟨a, ha, rfl⟩
      · rcases List.exists_mem_of_ne_nil s.agents hne with ⟨a, ha⟩
        refine ⟨a, ha, [e], by simp, ?_⟩
        rw [heq]
        exact (pushMem_suffix [] e).trans (List.suffix_append _ _)
      · refine ⟨a, ha, [e], by simp, ?_⟩
        rw [heq]
        exact pushMem_suffix a.memory e

/-- Witness for `claim3_bounded_histories`: the concrete one-agent state
is bounded and remains bounded after two steps. -/
theorem claim3_witness : Bounded wState ∧ Bounded (run envA 2 wState) := by
  have hb : Bounded wState := by
    refine ⟨by simp [wState], by simp [wState], by simp [wState], ?_⟩
    intro a h
    simp only [wState, List.mem_singleton] at h
    subst h
    simp [wAgent]
  exact ⟨hb, claim3_bounded_histories.1 envA 2 wState hb⟩

theorem dummyAgent_ok : AgentOK dummyAgent := by
  refine ⟨fun sym => ⟨?_, ?_⟩, fun p => ⟨?_, ?_⟩, ?_, ?_⟩ <;>
    norm_num [dummyAgent, dummyMeaning, MeaningOK]

theorem getD_ok {l : List Agent} (h : ∀ a ∈ l, AgentOK a) (i : ℕ) :
    AgentOK (l.getD i dummyAgent) := by
  by_cases hlt : i < l.length
  · have : l.getD i dummyAgent = l[i] := by
      simp [List.getD_eq_getElem?_getD, List.getElem?_eq_getElem hlt]
    rw [this]
    exact h _ (List.getElem_mem _)
  · have : l.getD i dummyAgent = dummyAgent := by
      simp [List.getD_eq_getElem?_getD, List.getElem?_eq_none (le_of_not_lt hlt)]
    rw [this]
    exact dummyAgent_ok

theorem forgetMeaning_ok (env : Env) (k stepN : ℕ) (fRate : ℚ) (m : SymbolMeaning)
    (hf0 : 0 ≤ fRate) (hf1 : fRate ≤ 1) (hm : MeaningOK m) :
    MeaningOK (forgetMeaning env k stepN fRate m).1 := by
  simp only [forgetMeaning]
  split_ifs
  · constructor
    · exact mul_nonneg hm.1 (by linarith)
    · calc m.confidence * (1 - fRate) ≤ m.confidence * 1 :=
        mul_le_mul_of_nonneg_left (by linarith) hm.1
      _ = m.confidence := mul_one _
      _ ≤ 1 := hm.2
  · exact hm

theorem forgetSymbols_ok (env : Env) (stepN : ℕ) (fRate : ℚ)
    (hf0 : 0 ≤ fRate) (hf1 : fRate ≤ 1) :
    ∀ (syms : List Symbol) (maps : Symbol → SymbolMeaning) (k : ℕ),
      (∀ sym, MeaningOK (maps sym)) →
      ∀ sym, MeaningOK ((forgetSymbols env stepN fRate syms maps k).1 sym) := by
  intro syms
  induction syms with
  | nil => intro maps k hm sym; exact hm sym
  | cons s rest ih =>
    intro maps k hm sym
    simp only [forgetSymbols]
    apply ih
    intro sym'
    by_cases he : sym' = s
    · subst he
      rw [Function.update_same]
      exact forgetMeaning_ok env k stepN fRate (maps sym') hf0 hf1 (hm sym')
    · rw [Function.update_noteq he]
      exact hm sym'

theorem forgetAgent_ok (env : Env) (stepN : ℕ) (symbols : List Symbol) (a : Agent)
    (k : ℕ) (ha : AgentOK a) : AgentOK (forgetAgent env stepN symbols a k).1 := by
  obtain ⟨hm, ht, hf0, hf1⟩ := ha
  exact ⟨forgetSymbols_ok env stepN a.forgettingRate hf0 hf1 symbols a.symbolMappings k hm,
    ht, hf0, hf1⟩

theorem forgetAgents_ok (env : Env) (stepN : ℕ) (symbols : List Symbol) :
    ∀ (l : List Agent) (k : ℕ), (∀ a ∈ l, AgentOK a) →
      ∀ a' ∈ (forgetAgents env stepN symbols l k).1, AgentOK a' := by
  intro l
  induction l with
  | nil =>
    intro k _ a' h'
    simp [forgetAgents] at h'
  | cons b rest ih =>
    intro k h a' h'
    rw [forgetAgents_cons] at h'
    rcases List.mem_cons.1 h' with h1 | h1
    · rw [h1]
      exact forgetAgent_ok env stepN symbols b k (h b (List.mem_cons_self _ _))
    · exact ih _ (fun a ha => h a (List.mem_cons_of_mem _ ha)) a' h1

theorem adaptSymbol_ok (env : Env) (k stepN : ℕ) (success : Bool) (a c t : ℚ)
    (sM rM : SymbolMeaning) (hs : MeaningOK sM) (hr : MeaningOK rM)
    (ht0 : 0 ≤ t) (ht1 : t ≤ 1) :
    MeaningOK (adaptSymbol env k stepN success a c t sM rM).1 ∧
    MeaningOK (adaptSymbol env k stepN success a c t sM rM).2.1 ∧
    0 ≤ (adaptSymbol env k stepN success a c t sM rM).2.2.1 ∧
    (adaptSymbol env k stepN success a c t sM rM).2.2.1 ≤ 1 ∧
    t ≤ (adaptSymbol env k stepN success a c t sM rM).2.2.1 := by
  obtain ⟨hs0, hs1⟩ := hs
  obtain ⟨hr0, hr1⟩ := hr
  rcases success with _ | _
  · -- failure branch
    simp only [adaptSymbol, Bool.false_eq_true, if_false]
    split_ifs
    · exact ⟨⟨hs0, hs1⟩, ⟨by norm_num, by norm_num⟩, ht0, ht1, le_refl t⟩
    · exact ⟨⟨hs0, hs1⟩, ⟨hr0, hr1⟩, ht0, ht1, le_refl t⟩
  · -- success branch
    simp only [adaptSymbol, if_true]
    refine ⟨⟨le_min (by norm_num) (by linarith), min_le_left _ _⟩,
      ⟨le_min (by norm_num) (by linarith), min_le_left _ _⟩,
      le_min (by norm_num) (by linarith), min_le_left _ _,
      le_min ht1 (by linarith)⟩

theorem AgentOK_memory {a : Agent} (h : AgentOK a) (m : List MemEntry) :
    AgentOK {a with memory := m} := by
  obtain ⟨h1, h2, h3, h4⟩ := h
  exact ⟨h1, h2, h3, h4⟩

theorem AgentOK_update_mapping {a : Agent} (h : AgentOK a) (sym : Symbol)
    {m : SymbolMeaning} (hm : MeaningOK m) :
    AgentOK {a with symbolMappings := Function.update a.symbolMappings sym m} := by
  obtain ⟨h1, h2, h3, h4⟩ := h
  refine ⟨fun sym' => ?_, h2, h3, h4⟩
  show MeaningOK (Function.update a.symbolMappings sym m sym')
  by_cases he : sym' = sym
  · subst he
    rw [Function.update_same]
    exact hm
  · rw [Function.update_noteq he]
    exact h1 sym'

theorem AgentOK_update_both {a : Agent} (h : AgentOK a) (sym : Symbol)
    {m : SymbolMeaning} (hm : MeaningOK m) (p0 : ℕ) {t : ℚ} (ht : 0 ≤ t ∧ t ≤ 1) :
    AgentOK {a with symbolMappings := Function.update a.symbolMappings sym m,
                    trustScores := Function.update a.trustScores p0 t} := by
  obtain ⟨h1, h2, h3, h4⟩ := h
  refine ⟨fun sym' => ?_, fun p => ?_, h3, h4⟩
  · show MeaningOK (Function.update a.symbolMappings sym m sym')
    by_cases he : sym' = sym
    · subst he
      rw [Function.update_same]
      exact hm
    · rw [Function.update_noteq he]
      exact h1 sym'
  · show 0 ≤ Function.update a.trustScores p0 t p ∧ Function.update a.trustScores p0 t p ≤ 1
    by_cases hp : p = p0
    · subst hp
      rw [Function.update_same]
      exact ht
    · rw [Function.update_noteq hp]
      exact h2 p

theorem update_trust_mono {f : ℕ → ℚ} {p0 : ℕ} {t : ℚ} (h : f p0 ≤ t) (p : ℕ) :
    f p ≤ Function.update f p0 t p := by
  by_cases hp : p = p0
  · subst hp
    rw [Function.update_same]
    exact h
  · rw [Function.update_noteq hp]

theorem adaptSeq_ok (env : Env) (stepN : ℕ) (success : Bool) (senderIdx : ℕ) :
    ∀ (seq : List Symbol) (sA rA : Agent) (k : ℕ),
      AgentOK sA → AgentOK rA →
      AgentOK (adaptSeq env stepN success senderIdx seq sA rA k).1 ∧
      AgentOK (adaptSeq env stepN success senderIdx seq sA rA k).2.1 ∧
      (∀ p, rA.trustScores p ≤
        (adaptSeq env stepN success senderIdx seq sA rA k).2.1.trustScores p) ∧
      (adaptSeq env stepN success senderIdx seq sA rA k).1.trustScores = sA.trustScores := by
  intro seq
  induction seq with
  | nil =>
    intro sA rA k hsa hra
    exact ⟨hsa, hra, fun p => le_refl _, rfl⟩
  | cons sym rest ih =>
    intro sA rA k hsa hra
    have hout := adaptSymbol_ok env k stepN success rA.adaptability rA.convergenceSpeed
      (rA.trustScores senderIdx) (sA.symbolMappings sym) (rA.symbolMappings sym)
      (hsa.1 sym) (hra.1 sym) (hra.2.1 senderIdx).1 (hra.2.1 senderIdx).2
    have hsa' := AgentOK_update_mapping hsa sym hout.1
    have hra' := AgentOK_update_both hra sym hout.2.1 senderIdx ⟨hout.2.2.1, hout.2.2.2.1⟩
    have hrec := ih _ _ (adaptSymbol env k stepN success rA.adaptability rA.convergenceSpeed
      (rA.trustScores senderIdx) (sA.symbolMappings sym) (rA.symbolMappings sym)).2.2.2
      hsa' hra'
    refine ⟨?_, ?_, ?_, ?_⟩
    · simpa only [adaptSeq] using hrec.1
    · simpa only [adaptSeq] using hrec.2.1
    · intro p
      simp only [adaptSeq]
      exact le_trans (update_trust_mono hout.2.2.2.2 p) (hrec.2.2.1 p)
    · simp only [adaptSeq]
      rw [hrec.2.2.2]

theorem commPhase_ok (env : Env) (symbols : List Symbol) (stepN : ℕ)
    (agents : List Agent) (comms : List Communication) (patterns : String → ℕ)
    (k kc : ℕ) (h : ∀ a ∈ agents, AgentOK a) :
    ∀ a' ∈ (commPhase env symbols stepN agents comms patterns k kc).1, AgentOK a' := by
  intro a' h'
  by_cases hsr : floorIdx (env.rand k) agents.length =
      floorIdx (env.rand (k + 1)) agents.length
  · have heq : (commPhase env symbols stepN agents comms patterns k kc).1 = agents := by
      simp [commPhase, hsr]
    rw [heq] at h'
    exact h a' h'
  · simp only [commPhase, if_neg hsr] at h'
    rcases mem_set_set h' with h1 | h1 | h1
    · exact h a' h1
    · rw [h1]
      exact AgentOK_memory
        (adaptSeq_ok env stepN _ _ _ _ _ _ (getD_ok h _) (getD_ok h _)).1 _
    · rw [h1]
      exact AgentOK_memory
        (adaptSeq_ok env stepN _ _ _ _ _ _ (getD_ok h _) (getD_ok h _)).2.1 _

theorem redefineAgents_ok (env : Env) (target : Symbol) :
    ∀ (l : List Agent) (k : ℕ), (∀ a ∈ l, AgentOK a) →
      ∀ a' ∈ redefineAgents env target k l, AgentOK a' := by
  intro l
  induction l with
  | nil =>
    intro k _ a' h'
    simp [redefineAgents] at h'
  | cons b rest ih =>
    intro k h a' h'
    simp only [redefineAgents] at h'
    rcases List.mem_cons.1 h' with h1 | h1
    · rw [h1]
      have hb := h b (List.mem_cons_self _ _)
      exact AgentOK_update_mapping hb target ⟨by norm_num, by norm_num⟩
    · exact ih _ (fun a ha => h a (List.mem_cons_of_mem _ ha)) a' h1

theorem triggerContextShift_ok (env : Env) (symbols : List Symbol) (stepN : ℕ)
    (agents : List Agent) (shifts : List ContextShift) (k kc : ℕ)
    (h : ∀ a ∈ agents, AgentOK a) :
    ∀ a' ∈ (triggerContextShift env symbols stepN agents shifts k kc).1, AgentOK a' := by
  intro a' h'
  simp only [triggerContextShift] at h'
  split_ifs at h'
  · exact redefineAgents_ok env _ agents _ h a' h'
  · exact h a' h'

theorem simulateStep_ok (env : Env) (s : SimState) (h : StateOK s) :
    StateOK (simulateStep env s) := by
  by_cases hlen : s.agents.length = 0
  · rw [simulateStep_empty env s (List.length_eq_zero.1 hlen)]
    exact h
  · intro a' h'
    simp only [simulateStep, if_neg hlen] at h'
    have hforget := forgetAgents_ok env s.step s.symbols s.agents s.randCtr h
    have hcomm := commPhase_ok env s.symbols s.step
      (forgetAgents env s.step s.symbols s.agents s.randCtr).1 s.communications
      s.syntaxPatterns (forgetAgents env s.step s.symbols s.agents s.randCtr).2
      s.clockCtr hforget
    by_cases hcond : 0 < s.step ∧ s.step % 100 = 0
    · rw [if_pos hcond] at h'
      exact triggerContextShift_ok env s.symbols s.step _ s.contextShifts _ _ hcomm a' h'
    · rw [if_neg hcond] at h'
      exact hcomm a' h'

/-- **C4**: all confidence values and all trust values remain within
`[0, 1]` after any number of simulation steps — through forgetting passes,
success/failure adaptation and context shifts (the state invariant also
carries the forgetting-rate range `[0, 1]`, within which the sampled
`[0.001, 0.005)` traits lie). -/
theorem claim4_confidence_trust_bounds (env : Env) (n : ℕ) (s : SimState)
    (h : StateOK s) : StateOK (run env n s) := by
  induction n generalizing s with
  | zero => exact h
  | succ n ih => exact ih (simulateStep env s) (simulateStep_ok env s h)

/-- Witness for `claim4_confidence_trust_bounds` at the concrete one-agent
state, run for three steps. -/
theorem claim4_witness : StateOK wState ∧ StateOK (run envA 3 wState) := by
  have h : StateOK wState := by
    intro a ha
    simp only [wState, List.mem_singleton] at ha
    subst ha
    refine ⟨fun sym => ⟨?_, ?_⟩, fun p => ⟨?_, ?_⟩, ?_, ?_⟩ <;>
      norm_num [wAgent, wMeaning, MeaningOK]
  exact ⟨h, claim4_confidence_trust_bounds envA 3 wState h⟩

theorem dummyAgent_trustHi : TrustHi dummyAgent := by
  intro p
  constructor <;> norm_num [dummyAgent]

theorem getD_trustHi {l : List Agent} (h : ∀ a ∈ l, TrustHi a) (i : ℕ) :
    TrustHi (l.getD i dummyAgent) := by
  by_cases hlt : i < l.length
  · have heq : l.getD i dummyAgent = l[i] := by
      simp [List.getD_eq_getElem?_getD, List.getElem?_eq_getElem hlt]
    rw [heq]
    exact h _ (List.getElem_mem _)
  · have heq : l.getD i dummyAgent = dummyAgent := by
      simp [List.getD_eq_getElem?_getD, List.getElem?_eq_none (le_of_not_lt hlt)]
    rw [heq]
    exact dummyAgent_trustHi

theorem adaptSymbol_trust (env : Env) (k stepN : ℕ) (success : Bool) (a c t : ℚ)
    (sM rM : SymbolMeaning) (ht0 : 1/2 ≤ t) (ht1 : t ≤ 1) :
    1/2 ≤ (adaptSymbol env k stepN success a c t sM rM).2.2.1 ∧
    (adaptSymbol env k stepN success a c t sM rM).2.2.1 ≤ 1 ∧
    t ≤ (adaptSymbol env k stepN success a c t sM rM).2.2.1 := by
  rcases success with _ | _
  · simp only [adaptSymbol, Bool.false_eq_true, if_false]
    split_ifs
    · exact ⟨ht0, ht1, le_refl t⟩
    · exact ⟨ht0, ht1, le_refl t⟩
  · simp only [adaptSymbol, if_true]
    exact ⟨le_min (by norm_num) (by linarith), min_le_left _ _, le_min ht1 (by linarith)⟩

theorem adaptSeq_trust (env : Env) (stepN : ℕ) (success : Bool) (senderIdx : ℕ) :
    ∀ (seq : List Symbol) (sA rA : Agent) (k : ℕ), TrustHi rA →
      TrustHi (adaptSeq env stepN success senderIdx seq sA rA k).2.1 ∧
      (∀ p, rA.trustScores p ≤
        (adaptSeq env stepN success senderIdx seq sA rA k).2.1.trustScores p) ∧
      (adaptSeq env stepN success senderIdx seq sA rA k).1.trustScores = sA.trustScores := by
  intro seq
  induction seq with
  | nil =>
    intro sA rA k hra
    exact ⟨hra, fun p => le_refl _, rfl⟩
  | cons sym rest ih =>
    intro sA rA k hra
    have hout := adaptSymbol_trust env k stepN success rA.adaptability rA.convergenceSpeed
      (rA.trustScores senderIdx) (sA.symbolMappings sym) (rA.symbolMappings sym)
      (hra senderIdx).1 (hra senderIdx).2
    have hra' : TrustHi {rA with
        symbolMappings := Function.update rA.symbolMappings sym
          (adaptSymbol env k stepN success rA.adaptability rA.convergenceSpeed
            (rA.trustScores senderIdx) (sA.symbolMappings sym) (rA.symbolMappings sym)).2.1,
        trustScores := Function.update rA.trustScores senderIdx
          (adaptSymbol env k stepN success rA.adaptability rA.convergenceSpeed
            (rA.trustScores senderIdx) (sA.symbolMappings sym) (rA.symbolMappings sym)).2.2.1} := by
      intro p
      show 1/2 ≤ Function.update rA.trustScores senderIdx _ p ∧
        Function.update rA.trustScores senderIdx _ p ≤ 1
      by_cases hp : p = senderIdx
      · subst hp
        rw [Function.update_same]
        exact ⟨hout.1, hout.2.1⟩
      · rw [Function.update_noteq hp]
        exact hra p
    have hrec := ih
      { sA with
        symbolMappings :=
          Function.update sA.symbolMappings sym
            (adaptSymbol env k stepN success rA.adaptability rA.convergenceSpeed
              (rA.trustScores senderIdx) (sA.symbolMappings sym) (rA.symbolMappings sym)).1 }
      _
      (adaptSymbol env k stepN success rA.adaptability rA.convergenceSpeed
        (rA.trustScores senderIdx) (sA.symbolMappings sym) (rA.symbolMappings sym)).2.2.2
      hra'
    refine ⟨?_, ?_, ?_⟩
    · simpa only [adaptSeq] using hrec.1
    · intro p
      simp only [adaptSeq]
      exact le_trans (update_trust_mono hout.2.2 p) (hrec.2.1 p)
    · simp only [adaptSeq]
      rw [hrec.2.2]

theorem getD_set_self {l : List Agent} {j : ℕ} {x : Agent} (h : j < l.length) :
    (l.set j x).getD j dummyAgent = x := by
  have : (l.set j x)[j]? = some x := by
    rw [List.getElem?_set]
    simp [h]
  simp [List.getD_eq_getElem?_getD, this]

theorem getD_set_ne {l : List Agent} {i j : ℕ} {x : Agent} (h : ¬ j = i) :
    (l.set j x).getD i dummyAgent = l.getD i dummyAgent := by
  have : (l.set j x)[i]? = l[i]? := by
    rw [List.getElem?_set]
    simp [h]
  simp [List.getD_eq_getElem?_getD, this]

theorem commPhase_getD_trust (env : Env) (symbols : List Symbol) (stepN : ℕ)
    (agents : List Agent) (comms : List Communication) (patterns : String → ℕ)
    (k kc : ℕ) (h : ∀ a ∈ agents, TrustHi a) (i p : ℕ) :
    (agents.getD i dummyAgent).trustScores p ≤
      ((commPhase env symbols stepN agents comms patterns k kc).1.getD i
        dummyAgent).trustScores p := by
  by_cases hsr : floorIdx (env.rand k) agents.length =
      floorIdx (env.rand (k + 1)) agents.length
  · have heq : (commPhase env symbols stepN agents comms patterns k kc).1 = agents := by
      simp [commPhase, hsr]
    rw [heq]
  · have hseq := adaptSeq_trust env stepN
      (exchangeSuccess (agents.getD (floorIdx (env.rand k) agents.length) dummyAgent)
        (agents.getD (floorIdx (env.rand (k + 1)) agents.length) dummyAgent)
        (buildSequence env symbols (k + 2 + 1)
          (if env.rand (k + 2) < 4/5 then 1 else 2)))
      (floorIdx (env.rand k) agents.length)
      (buildSequence env symbols (k + 2 + 1) (if env.rand (k + 2) < 4/5 then 1 else 2))
      (agents.getD (floorIdx (env.rand k) agents.length) dummyAgent)
      (agents.getD (floorIdx (env.rand (k + 1)) agents.length) dummyAgent)
      (k + 2 + 1 + (if env.rand (k + 2) < 4/5 then 1 else 2))
      (getD_trustHi h _)
    simp only [commPhase, if_neg hsr]
    by_cases hiR : floorIdx (env.rand (k + 1)) agents.length = i
    · by_cases hR : floorIdx (env.rand (k + 1)) agents.length < agents.length
      · subst hiR
        rw [getD_set_self (by simpa using hR)]
        exact hseq.2.1 p
      · rw [List.set_eq_of_length_le (by simpa using le_of_not_lt hR)]
        by_cases hiS : floorIdx (env.rand k) agents.length = i
        · subst hiS
          exact absurd hiR.symm hsr
        · rw [getD_set_ne hiS]
    · rw [getD_set_ne hiR]
      by_cases hiS : floorIdx (env.rand k) agents.length = i
      · by_cases hS : floorIdx (env.rand k) agents.length < agents.length
        · subst hiS
          rw [getD_set_self hS]
          exact le_of_eq (congrFun hseq.2.2 p).symm
        · rw [List.set_eq_of_length_le (le_of_not_lt hS)]
      · rw [getD_set_ne hiS]

theorem TrustHi_congr {a b : Agent} (h : a.trustScores = b.trustScores)
    (hb : TrustHi b) : TrustHi a := by
  intro p
  rw [h]
  exact hb p

theorem forgetAgents_trust_mem (env : Env) (stepN : ℕ) (symbols : List Symbol) :
    ∀ (l : List Agent) (k : ℕ), ∀ a' ∈ (forgetAgents env stepN symbols l k).1,
      ∃ a ∈ l, a'.trustScores = a.trustScores := by
  intro l
  induction l with
  | nil =>
    intro k a' h
    simp [forgetAgents] at h
  | cons b rest ih =>
    intro k a' h
    rw [forgetAgents_cons] at h
    rcases List.mem_cons.1 h with h1 | h1
    · exact ⟨b, List.mem_cons_self _ _, by rw [h1]; rfl⟩
    · rcases ih _ a' h1 with ⟨a, ha, hm⟩
      exact ⟨a, List.mem_cons_of_mem _ ha, hm⟩

theorem redefineAgents_trust_mem (env : Env) (target : Symbol) :
    ∀ (l : List Agent) (k : ℕ), ∀ a' ∈ redefineAgents env target k l,
      ∃ a ∈ l, a'.trustScores = a.trustScores := by
  intro l
  induction l with
  | nil =>
    intro k a' h
    simp [redefineAgents] at h
  | cons b rest ih =>
    intro k a' h
    simp only [redefineAgents] at h
    rcases List.mem_cons.1 h with h1 | h1
    · exact ⟨b, List.mem_cons_self _ _, by rw [h1]⟩
    · rcases ih _ a' h1 with ⟨a, ha, hm⟩
      exact ⟨a, List.mem_cons_of_mem _ ha, hm⟩

theorem commPhase_trustHi (env : Env) (symbols : List Symbol) (stepN : ℕ)
    (agents : List Agent) (comms : List Communication) (patterns : String → ℕ)
    (k kc : ℕ) (h : ∀ a ∈ agents, TrustHi a) :
    ∀ a' ∈ (commPhase env symbols stepN agents comms patterns k kc).1, TrustHi a' := by
  intro a' h'
  by_cases hsr : floorIdx (env.rand k) agents.length =
      floorIdx (env.rand (k + 1)) agents.length
  · have heq : (commPhase env symbols stepN agents comms patterns k kc).1 = agents := by
      simp [commPhase, hsr]
    rw [heq] at h'
    exact h a' h'
  · have hseq := adaptSeq_trust env stepN
      (exchangeSuccess (agents.getD (floorIdx (env.rand k) agents.length) dummyAgent)
        (agents.getD (floorIdx (env.rand (k + 1)) agents.length) dummyAgent)
        (buildSequence env symbols (k + 2 + 1)
          (if env.rand (k + 2) < 4/5 then 1 else 2)))
      (floorIdx (env.rand k) agents.length)
      (buildSequence env symbols (k + 2 + 1) (if env.rand (k + 2) < 4/5 then 1 else 2))
      (agents.getD (floorIdx (env.rand k) agents.length) dummyAgent)
      (agents.getD (floorIdx (env.rand (k + 1)) agents.length) dummyAgent)
      (k + 2 + 1 + (if env.rand (k + 2) < 4/5 then 1 else 2))
      (getD_trustHi h _)
    simp only [commPhase, if_neg hsr] at h'
    rcases mem_set_set h' with h1 | h1 | h1
    · exact h a' h1
    · rw [h1]
      exact TrustHi_congr hseq.2.2 (getD_trustHi h _)
    · rw [h1]
      exact hseq.1

theorem triggerContextShift_trustHi (env : Env) (symbols : List Symbol) (stepN : ℕ)
    (agents : List Agent) (shifts : List ContextShift) (k kc : ℕ)
    (h : ∀ a ∈ agents, TrustHi a) :
    ∀ a' ∈ (triggerContextShift env symbols stepN agents shifts k kc).1, TrustHi a' := by
  intro a' h'
  simp only [triggerContextShift] at h'
  split_ifs at h'
  · rcases redefineAgents_trust_mem env _ agents _ a' h' with ⟨a, ha, hm⟩
    exact TrustHi_congr hm (h a ha)
  · exact h a' h'

theorem forgetAgents_getD_trust (env : Env) (stepN : ℕ) (symbols : List Symbol) :
    ∀ (l : List Agent) (k i : ℕ),
      ((forgetAgents env stepN symbols l k).1.getD i dummyAgent).trustScores =
        (l.getD i dummyAgent).trustScores := by
  intro l
  induction l with
  | nil => intro k i; rfl
  | cons b rest ih =>
    intro k i
    rw [forgetAgents_cons]
    cases i with
    | zero => rfl
    | succ i =>
      simpa only [List.getD_cons_succ] using ih _ i

theorem redefineAgents_getD_trust (env : Env) (target : Symbol) :
    ∀ (l : List Agent) (k i : ℕ),
      ((redefineAgents env target k l).getD i dummyAgent).trustScores =
        (l.getD i dummyAgent).trustScores := by
  intro l
  induction l with
  | nil => intro k i; rfl
  | cons b rest ih =>
    intro k i
    simp only [redefineAgents]
    cases i with
    | zero => rfl
    | succ i =>
      simpa only [List.getD_cons_succ] using ih _ i

theorem triggerContextShift_getD_trust (env : Env) (symbols : List Symbol) (stepN : ℕ)
    (agents : List Agent) (shifts : List ContextShift) (k kc i : ℕ) :
    (((triggerContextShift env symbols stepN agents shifts k kc).1.getD i
      dummyAgent)).trustScores = (agents.getD i dummyAgent).trustScores := by
  simp only [triggerContextShift]
  split_ifs
  · exact redefineAgents_getD_trust env _ agents _ i
  · rfl

theorem simulateStep_trust (env : Env) (s : SimState) (h : TrustInv s) :
    TrustInv (simulateStep env s) ∧
    ∀ i p, (s.agents.getD i dummyAgent).trustScores p ≤
      ((simulateStep env s).agents.getD i dummyAgent).trustScores p := by
  by_cases hlen : s.agents.length = 0
  · rw [simulateStep_empty env s (List.length_eq_zero.1 hlen)]
    exact ⟨h, fun i p => le_refl _⟩
  · have hfor : ∀ a' ∈ (forgetAgents env s.step s.symbols s.agents s.randCtr).1, TrustHi a' := by
      intro a' h'
      rcases forgetAgents_trust_mem env s.step s.symbols s.agents s.randCtr a' h' with
        ⟨a, ha, hm⟩
      exact TrustHi_congr hm (h a ha)
    have hcom := commPhase_trustHi env s.symbols s.step
      (forgetAgents env s.step s.symbols s.agents s.randCtr).1 s.communications
      s.syntaxPatterns (forgetAgents env s.step s.symbols s.agents s.randCtr).2
      s.clockCtr hfor
    constructor
    · intro a' h'
      simp only [simulateStep, if_neg hlen] at h'
      by_cases hcond : 0 < s.step ∧ s.step % 100 = 0
      · rw [if_pos hcond] at h'
        exact triggerContextShift_trustHi env s.symbols s.step _ s.contextShifts _ _
          hcom a' h'
      · rw [if_neg hcond] at h'
        exact hcom a' h'
    · intro i p
      simp only [simulateStep, if_neg hlen]
      have step1 : (s.agents.getD i dummyAgent).trustScores p =
          ((forgetAgents env s.step s.symbols s.agents s.randCtr).1.getD i
            dummyAgent).trustScores p :=
        (congrFun (forgetAgents_getD_trust env s.step s.symbols s.agents s.randCtr i) p).symm
      have step2 := commPhase_getD_trust env s.symbols s.step
        (forgetAgents env s.step s.symbols s.agents s.randCtr).1 s.communications
        s.syntaxPatterns (forgetAgents env s.step s.symbols s.agents s.randCtr).2
        s.clockCtr hfor i p
      by_cases hcond : 0 < s.step ∧ s.step % 100 = 0
      · rw [if_pos hcond]
        rw [congrFun (triggerContextShift_getD_trust env s.symbols s.step _
          s.contextShifts _ _ i) p]
        rw [step1]
        exact step2
      · rw [if_neg hcond]
        rw [step1]
        exact step2

theorem initAgentsFrom_trust (env : Env) (symbols : List Symbol) :
    ∀ (n i k : ℕ), ∀ a ∈ (initAgentsFrom env symbols n i k).1,
      a.trustScores = fun _ => 1/2 := by
  intro n
  induction n with
  | zero =>
    intro i k a h
    simp [initAgentsFrom] at h
  | succ n ih =>
    intro i k a h
    simp only [initAgentsFrom] at h
    rcases List.mem_cons.1 h with h1 | h1
    · rw [h1]
      rfl
    · exact ih _ _ a h1

/-- **C10** (implicit): within a single run, every agent's trust toward
every peer starts at exactly `0.5`, is monotonically non-decreasing under
every step (the only trust write is the `+0.02` clamped increase on a
successful exchange; forgetting, failed exchanges and context shifts never
write trust), and always lies in `[0.5, 1]`. -/
theorem claim10_trust_monotone :
    (∀ (env : Env) (symbols : List Symbol),
      ∀ a ∈ (initState env symbols).agents, ∀ p, a.trustScores p = 1/2) ∧
    (∀ (env : Env) (s : SimState), TrustInv s →
      TrustInv (simulateStep env s) ∧
      ∀ i p, (s.agents.getD i dummyAgent).trustScores p ≤
        ((simulateStep env s).agents.getD i dummyAgent).trustScores p) ∧
    (∀ (env : Env) (symbols : List Symbol) (n : ℕ),
      ∀ a ∈ (run env n (initState env symbols)).agents, ∀ p,
        1/2 ≤ a.trustScores p ∧ a.trustScores p ≤ 1) := by
  have hinit : ∀ (env : Env) (symbols : List Symbol),
      ∀ a ∈ (initState env symbols).agents, ∀ p, a.trustScores p = 1/2 := by
    intro env symbols a h p
    have := initAgentsFrom_trust env symbols 4 0 0 a h
    rw [this]
  refine ⟨hinit, fun env s h => simulateStep_trust env s h, ?_⟩
  intro env symbols n
  have key : ∀ (m : ℕ) (s : SimState), TrustInv s → TrustInv (run env m s) := by
    intro m
    induction m with
    | zero => intro s hs; exact hs
    | succ m ih =>
      intro s hs
      exact ih (simulateStep env s) (simulateStep_trust env s hs).1
  have h0 : TrustInv (initState env symbols) := by
    intro a ha p
    rw [hinit env symbols a ha p]
    norm_num
  intro a ha p
  exact key n (initState env symbols) h0 a ha p

/-- Witness for `claim10_trust_monotone`: the concrete one-agent state
satisfies the trust invariant, and one step does not decrease its trust
toward peer 1. -/
theorem claim10_witness :
    TrustInv wState ∧
    (wState.agents.getD 0 dummyAgent).trustScores 1 ≤
      ((simulateStep envA wState).agents.getD 0 dummyAgent).trustScores 1 := by
  have h : TrustInv wState := by
    intro a ha p
    simp only [wState, List.mem_singleton] at ha
    subst ha
    constructor <;> norm_num [wAgent]
  exact ⟨h, (claim10_trust_monotone.2.1 envA wState h).2 0 1⟩

theorem SimRel_refl (s : SimState) : SimRel s s :=
  ⟨rfl, rfl, rfl, rfl, rfl, rfl, rfl, rfl, rfl, rfl⟩

theorem map_lastN (f : α → β) (n : ℕ) (l : List α) :
    (lastN n l).map f = lastN n (l.map f) := by
  simp [lastN, List.map_drop]

theorem forgetMeaning_env (rand : ℕ → ℚ) (c1 c2 : ℕ → ℤ) (k stepN : ℕ) (fRate : ℚ)
    (m : SymbolMeaning) :
    forgetMeaning ⟨rand, c1⟩ k stepN fRate m = forgetMeaning ⟨rand, c2⟩ k stepN fRate m := rfl

theorem forgetSymbols_env (rand : ℕ → ℚ) (c1 c2 : ℕ → ℤ) (stepN : ℕ) (fRate : ℚ) :
    ∀ (syms : List Symbol) (maps : Symbol → SymbolMeaning) (k : ℕ),
      forgetSymbols ⟨rand, c1⟩ stepN fRate syms maps k =
        forgetSymbols ⟨rand, c2⟩ stepN fRate syms maps k := by
  intro syms
  induction syms with
  | nil => intro maps k; rfl
  | cons s rest ih =>
    intro maps k
    simp only [forgetSymbols]
    rw [forgetMeaning_env rand c1 c2]
    exact ih _ _

theorem forgetAgent_env (rand : ℕ → ℚ) (c1 c2 : ℕ → ℤ) (stepN : ℕ)
    (symbols : List Symbol) (a : Agent) (k : ℕ) :
    forgetAgent ⟨rand, c1⟩ stepN symbols a k = forgetAgent ⟨rand, c2⟩ stepN symbols a k := by
  simp only [forgetAgent]
  rw [forgetSymbols_env rand c1 c2]

theorem forgetAgents_env (rand : ℕ → ℚ) (c1 c2 : ℕ → ℤ) (stepN : ℕ)
    (symbols : List Symbol) :
    ∀ (l : List Agent) (k : ℕ),
      forgetAgents ⟨rand, c1⟩ stepN symbols l k = forgetAgents ⟨rand, c2⟩ stepN symbols l k := by
  intro l
  induction l with
  | nil => intro k; rfl
  | cons b rest ih =>
    intro k
    rw [forgetAgents_cons, forgetAgents_cons, forgetAgent_env rand c1 c2, ih]

theorem adaptSymbol_env (rand : ℕ → ℚ) (c1 c2 : ℕ → ℤ) (k stepN : ℕ) (success : Bool)
    (a c t : ℚ) (sM rM : SymbolMeaning) :
    adaptSymbol ⟨rand, c1⟩ k stepN success a c t sM rM =
      adaptSymbol ⟨rand, c2⟩ k stepN success a c t sM rM := by
  rcases success with _ | _ <;> rfl

theorem adaptSeq_env (rand : ℕ → ℚ) (c1 c2 : ℕ → ℤ) (stepN : ℕ) (success : Bool)
    (senderIdx : ℕ) :
    ∀ (seq : List Symbol) (sA rA : Agent) (k : ℕ),
      adaptSeq ⟨rand, c1⟩ stepN success senderIdx seq sA rA k =
        adaptSeq ⟨rand, c2⟩ stepN success senderIdx seq sA rA k := by
  intro seq
  induction seq with
  | nil => intro sA rA k; rfl
  | cons sym rest ih =>
    intro sA rA k
    simp only [adaptSeq]
    rw [adaptSymbol_env rand c1 c2]
    exact ih _ _ _

theorem buildSequence_env (rand : ℕ → ℚ) (c1 c2 : ℕ → ℤ) (symbols : List Symbol)
    (k len : ℕ) :
    buildSequence ⟨rand, c1⟩ symbols k len = buildSequence ⟨rand, c2⟩ symbols k len := rfl

theorem commPhase_env (rand : ℕ → ℚ) (c1 c2 : ℕ → ℤ) (symbols : List Symbol)
    (stepN : ℕ) (agents : List Agent) (comms1 comms2 : List Communication)
    (patterns : String → ℕ) (k kc : ℕ)
    (hc : comms1.map Communication.data = comms2.map Communication.data) :
    (commPhase ⟨rand, c1⟩ symbols stepN agents comms1 patterns k kc).1 =
      (commPhase ⟨rand, c2⟩ symbols stepN agents comms2 patterns k kc).1 ∧
    (commPhase ⟨rand, c1⟩ symbols stepN agents comms1 patterns k kc).2.1.map
        Communication.data =
      (commPhase ⟨rand, c2⟩ symbols stepN agents comms2 patterns k kc).2.1.map
        Communication.data ∧
    (commPhase ⟨rand, c1⟩ symbols stepN agents comms1 patterns k kc).2.2 =
      (commPhase ⟨rand, c2⟩ symbols stepN agents comms2 patterns k kc).2.2 := by
  by_cases hsr : floorIdx (rand k) agents.length = floorIdx (rand (k + 1)) agents.length
  · have e1 : commPhase ⟨rand, c1⟩ symbols stepN agents comms1 patterns k kc =
        (agents, comms1, patterns, k + 2, kc) := by
      simp [commPhase, hsr]
    have e2 : commPhase ⟨rand, c2⟩ symbols stepN agents comms2 patterns k kc =
        (agents, comms2, patterns, k + 2, kc) := by
      simp [commPhase, hsr]
    rw [e1, e2]
    exact ⟨rfl, hc, rfl⟩
  · simp only [commPhase, if_neg hsr]
    rw [adaptSeq_env rand c1 c2]
    refine ⟨rfl, ?_, rfl⟩
    simp only [List.map_append, map_lastN, hc, List.map_cons, List.map_nil,
      Communication.data, buildSequence_env rand c1 c2]

theorem redefineAgents_env (rand : ℕ → ℚ) (c1 c2 : ℕ → ℤ) (target : Symbol) :
    ∀ (l : List Agent) (k : ℕ),
      redefineAgents ⟨rand, c1⟩ target k l = redefineAgents ⟨rand, c2⟩ target k l := by
  intro l
  induction l with
  | nil => intro k; rfl
  | cons b rest ih =>
    intro k
    simp only [redefineAgents]
    rw [ih]

theorem triggerContextShift_env (rand : ℕ → ℚ) (c1 c2 : ℕ → ℤ) (symbols : List Symbol)
    (stepN : ℕ) (agents : List Agent) (shifts1 shifts2 : List ContextShift) (k kc : ℕ)
    (hc : shifts1.map ContextShift.data = shifts2.map ContextShift.data) :
    (triggerContextShift ⟨rand, c1⟩ symbols stepN agents shifts1 k kc).1 =
      (triggerContextShift ⟨rand, c2⟩ symbols stepN agents shifts2 k kc).1 ∧
    (triggerContextShift ⟨rand, c1⟩ symbols stepN agents shifts1 k kc).2.1.map
        ContextShift.data =
      (triggerContextShift ⟨rand, c2⟩ symbols stepN agents shifts2 k kc).2.1.map
        ContextShift.data ∧
    (triggerContextShift ⟨rand, c1⟩ symbols stepN agents shifts1 k kc).2.2 =
      (triggerContextShift ⟨rand, c2⟩ symbols stepN agents shifts2 k kc).2.2 := by
  simp only [triggerContextShift]
  split_ifs with h
  · refine ⟨?_, ?_, rfl⟩
    · rw [redefineAgents_env rand c1 c2]
    · simp only [List.map_append, hc, List.map_cons, List.map_nil, ContextShift.data]
  · refine ⟨rfl, ?_, rfl⟩
    simp only [List.map_append, hc, List.map_cons, List.map_nil, ContextShift.data]

theorem simulateStep_rel (rand : ℕ → ℚ) (c1 c2 : ℕ → ℤ) (s1 s2 : SimState)
    (h : SimRel s1 s2) :
    SimRel (simulateStep ⟨rand, c1⟩ s1) (simulateStep ⟨rand, c2⟩ s2) := by
  obtain ⟨h1, h2, h3, h4, h5, h6, h7, h8, h9, h10⟩ := h
  by_cases hemp : s1.agents.length = 0
  · have hemp2 : s2.agents.length = 0 := by rw [← h2]; exact hemp
    rw [simulateStep_empty _ _ (List.length_eq_zero.1 hemp),
        simulateStep_empty _ _ (List.length_eq_zero.1 hemp2)]
    exact ⟨by rw [h1], h2, h3, h4, h5, h6, h7, h8, h9, h10⟩
  · have hemp2 : ¬ s2.agents.length = 0 := by rw [← h2]; exact hemp
    simp only [simulateStep, if_neg hemp, if_neg hemp2]
    rw [← h1, ← h2, ← h3, ← h5, ← h6, ← h7, ← h9, ← h10]
    rw [forgetAgents_env rand c1 c2]
    have hcp := commPhase_env rand c1 c2 s1.symbols s1.step
      (forgetAgents ⟨rand, c2⟩ s1.step s1.symbols s1.agents s1.randCtr).1
      s1.communications s2.communications s1.syntaxPatterns
      (forgetAgents ⟨rand, c2⟩ s1.step s1.symbols s1.agents s1.randCtr).2
      s1.clockCtr h4
    rw [hcp.1, hcp.2.2]
    by_cases hcond : 0 < s1.step ∧ s1.step % 100 = 0
    · rw [if_pos hcond, if_pos hcond]
      have htr := triggerContextShift_env rand c1 c2 s1.symbols s1.step
        (commPhase ⟨rand, c2⟩ s1.symbols s1.step
          (forgetAgents ⟨rand, c2⟩ s1.step s1.symbols s1.agents s1.randCtr).1
          s2.communications s1.syntaxPatterns
          (forgetAgents ⟨rand, c2⟩ s1.step s1.symbols s1.agents s1.randCtr).2
          s1.clockCtr).1
        s1.contextShifts s2.contextShifts
        (commPhase ⟨rand, c2⟩ s1.symbols s1.step
          (forgetAgents ⟨rand, c2⟩ s1.step s1.symbols s1.agents s1.randCtr).1
          s2.communications s1.syntaxPatterns
          (forgetAgents ⟨rand, c2⟩ s1.step s1.symbols s1.agents s1.randCtr).2
          s1.clockCtr).2.2.2.1
        (commPhase ⟨rand, c2⟩ s1.symbols s1.step
          (forgetAgents ⟨rand, c2⟩ s1.step s1.symbols s1.agents s1.randCtr).1
          s2.communications s1.syntaxPatterns
          (forgetAgents ⟨rand, c2⟩ s1.step s1.symbols s1.agents s1.randCtr).2
          s1.clockCtr).2.2.2.2
        h8
      rw [htr.1, htr.2.2]
      exact ⟨rfl, rfl, rfl, hcp.2.1, rfl, rfl, rfl, htr.2.1, rfl, rfl⟩
    · rw [if_neg hcond, if_neg hcond]
      exact ⟨rfl, rfl, rfl, hcp.2.1, rfl, rfl, rfl, h8, rfl, rfl⟩

/-- **C1** (amended): the embedded step interacts with the outside world
only through the injected random stream and the injected `Date.now()`
clock; with both fixed, a run is a function of the initial state
(determinism), and with only the random stream fixed — arbitrary clocks —
the two runs agree on everything except the `Date.now()` ids embedded in
`Communication` and `ContextShift` records: identical agents, step
counter, `DriftSample` and `AlignmentSample` sequences, syntax patterns,
and id-stripped `Communication`/`ContextShift` sequences. -/
theorem claim1_determinism_modulo_clock (rand : ℕ → ℚ) (c1 c2 : ℕ → ℤ) (n : ℕ)
    (s : SimState) : SimRel (run ⟨rand, c1⟩ n s) (run ⟨rand, c2⟩ n s) := by
  have key : ∀ (m : ℕ) (s1 s2 : SimState), SimRel s1 s2 →
      SimRel (run ⟨rand, c1⟩ m s1) (run ⟨rand, c2⟩ m s2) := by
    intro m
    induction m with
    | zero => intro s1 s2 hrel; exact hrel
    | succ m ih =>
      intro s1 s2 hrel
      exact ih _ _ (simulateStep_rel rand c1 c2 s1 s2 hrel)
  exact key n s s (SimRel_refl s)

theorem chooseShiftType_three_quarters : chooseShiftType ((3:ℚ)/4) = ShiftType.task_change := by
  have h : ⌊(3:ℚ)/4 * (3:ℚ)⌋ = 2 := by
    rw [Int.floor_eq_iff]
    constructor
    · push_cast
      norm_num
    · push_cast
      norm_num
  have hf : floorIdx ((3:ℚ)/4) 3 = 2 := by
    simp only [floorIdx, Nat.cast_ofNat]
    rw [h]
    rfl
  simp [chooseShiftType, hf]

theorem wState_step_shifts (env : Env) (hr : env.rand = fun _ => (3:ℚ)/4) :
    (simulateStep env wState).contextShifts =
      [⟨100, ShiftType.task_change, env.clock 0⟩] := by
  have hlen : ¬ wState.agents.length = 0 := by simp [wState]
  have hforget : forgetAgents env wState.step wState.symbols wState.agents wState.randCtr =
      ([(forgetAgent env wState.step wState.symbols (wAgent 0) wState.randCtr).1],
       (forgetAgent env wState.step wState.symbols (wAgent 0) wState.randCtr).2) := by
    rw [show wState.agents = [wAgent 0] from rfl, forgetAgents_cons]
    rfl
  have hcomm := commPhase_single env wState.symbols wState.step
    (forgetAgent env wState.step wState.symbols (wAgent 0) wState.randCtr).1
    wState.communications wState.syntaxPatterns
    (forgetAgent env wState.step wState.symbols (wAgent 0) wState.randCtr).2 wState.clockCtr
    (by rw [hr]; norm_num) (by rw [hr]; norm_num) (by rw [hr]; norm_num) (by rw [hr]; norm_num)
  have hcond : 0 < wState.step ∧ wState.step % 100 = 0 := by
    constructor <;> norm_num [wState]
  have hty : chooseShiftType (env.rand
      ((forgetAgent env wState.step wState.symbols (wAgent 0) wState.randCtr).2 + 2)) =
      ShiftType.task_change := by
    rw [hr]
    exact chooseShiftType_three_quarters
  simp only [simulateStep, if_neg hlen, hforget, hcomm, if_pos hcond,
    triggerContextShift, hty]
  simp [wState]

/-- **C1** counterexample: two runs from the same state with the *same*
random stream but different ambient clocks produce different
`ContextShift` records (their `Date.now()` ids differ) — so a fixed
random seed alone does not determine the outputs, because the step reads
the ambient clock in addition to the random source and the shared
state. -/
theorem claim1_counterexample :
    (run envA 1 wState).contextShifts ≠ (run envB 1 wState).contextShifts := by
  have hA : (run envA 1 wState).contextShifts = [⟨100, ShiftType.task_change, 0⟩] := by
    have h := wState_step_shifts envA rfl
    simpa [run, envA] using h
  have hB : (run envB 1 wState).contextShifts = [⟨100, ShiftType.task_change, 7⟩] := by
    have h := wState_step_shifts envB rfl
    simpa [run, envB] using h
  rw [hA, hB]
  simp

end Protolang
